import Mathlib

/-!
# Game of Life: the universe of `universe.go`

A shallow embedding of the simulation core of `universe.go` (the types `Cell`
and `Universe`, and the functions `UpdateCellStatus`, `GetCellStateByIndex`,
`Directions`, `GetLiveNeighbours`, `newUniverse`, `GetIndex`, `Tick`), followed
by theorems about them.

Modelling conventions.

* Go `int` is a 64-bit integer whose arithmetic wraps.  The functions are given
  first in exact integers (`Int`); the theorems about them are stated for
  universes in which every computed quantity is a coordinate, an index below
  the number of cells or a sum of at most eight States.  `GetIndex`,
  `GetLiveNeighbours` and `Tick` are given a second time with 64-bit arithmetic
  (`GetIndex64`, `GetLiveNeighbours64`, `Tick64`), where `wrapInt64` reduces every
  sum and product to 64 bits; these carry the statements about an index or a
  counter of arbitrary size, and `Tick64_sim` relates the two versions.
* `Universe.Cells` is a slice of pointers to cells; it is modelled as a list of
  cell values, one distinct non-nil cell per slot.  A method with a pointer
  receiver returns the new contents of the cell, and `Tick` writes them back to
  the slot the pointer was read from.
* An out-of-range slice access panics in Go; such a function returns `Option`
  and `none` stands for the panic.
* `GetIndex` returns the pair `(index, error)`; the error is `none` for Go's
  `nil` and `some text` otherwise.
-/

namespace GameOfLife

/-- Cell of the universe: dead (0) or alive (1). -/
structure Cell where
  X : Int
  Y : Int
  State : Int
  LiveNeighbours : Int
deriving DecidableEq, Repr

/-- Flat two-dimensional universe. -/
structure Universe where
  CellsUpdated : Int
  Width : Int
  Height : Int
  Cells : List Cell
deriving DecidableEq, Repr

/-- Method `UpdateCellStatus`: the cell afterwards and the returned flag. -/
def Cell.UpdateCellStatus (c : Cell) : Cell × Int :=
  if c.State = 1 then
    if c.LiveNeighbours < 2 ∨ c.LiveNeighbours > 3 then
      ({ c with State := 0 }, 1)
    else
      (c, 0)
  else if c.State = 0 then
    if c.LiveNeighbours = 3 then
      ({ c with State := 1 }, 1)
    else
      (c, 0)
  else
    (c, 0)

/-- Slice access `cells[idx]`; `none` when Go would panic. -/
def cellAt (cells : List Cell) (idx : Int) : Option Cell :=
  if idx < 0 then none else cells[idx.toNat]?

/-- Method `GetCellStateByIndex`. -/
def Universe.GetCellStateByIndex (u : Universe) (idx : Int) : Option Int :=
  (cellAt u.Cells idx).map (fun c => c.State)

/-- Method `Directions`: the outer loop runs over `dirs[j]`, the inner one over
`dirs[i]`, and the pair `(dirs[j], dirs[i])` is appended unless both are 0. -/
def Universe.Directions (_u : Universe) (dirs : List Int) : List (Int × Int) :=
  dirs.foldl
    (fun result dj =>
      dirs.foldl
        (fun result di => if di = 0 ∧ dj = 0 then result else result ++ [(dj, di)])
        result)
    []

/-- Method `GetIndex`. -/
def Universe.GetIndex (u : Universe) (row column : Int) : Int × Option String :=
  if row < 0 ∨ row ≥ u.Width then
    (-1, some ("Row index " ++ toString row ++ " out of range"))
  else if column < 0 ∨ column ≥ u.Height then
    (-1, some ("Column index " ++ toString row ++ " out of range"))
  else
    (row * u.Width + column, none)

/-- One iteration of the loop of `GetLiveNeighbours` over the directions. -/
def liveNeighboursStep (c : Cell) (u : Universe) (live : Int) (d : Int × Int) : Option Int :=
  match u.GetIndex (c.X + d.1) (c.Y + d.2) with
  | (index, none) => (u.GetCellStateByIndex index).map (fun s => live + s)
  | (_, some _) => some live

/-- Method `GetLiveNeighbours`: the receiver cell afterwards. -/
def Cell.GetLiveNeighbours (c : Cell) (u : Universe) : Option Cell :=
  ((u.Directions [0, 1, -1]).foldlM (liveNeighboursStep c u) 0).map
    (fun live => { c with LiveNeighbours := live })

/-- Cell that `newUniverse` creates at row `i`, column `j`. -/
def newCell (u : Universe) (i j : Int) : Cell :=
  let c : Cell := { X := i, Y := j, State := 0, LiveNeighbours := 0 }
  if j > Int.tdiv u.Width 2 ∧ i < Int.tdiv u.Height 2 then
    if Int.tmod i 2 = 0 ∨ Int.tmod i 7 = 0 then { c with State := 1 } else c
  else c

/-- Function `newUniverse`; the literal sets `Height` to `w`. -/
def newUniverse (w _h : Int) : Universe :=
  let u : Universe := { Width := w, Height := w, CellsUpdated := 0, Cells := [] }
  (List.range u.Height.toNat).foldl
    (fun u (i : Nat) =>
      (List.range u.Width.toNat).foldl
        (fun u (j : Nat) => { u with Cells := u.Cells ++ [newCell u i j] })
        u)
    u

/-- Body of the inner loop of `Tick` at row `i`, column `j`. -/
def tickCell (u : Universe) (i j : Int) : Option Universe :=
  match u.GetIndex i j with
  | (idx, none) =>
    match cellAt u.Cells idx with
    | none => none
    | some cell =>
      match cell.GetLiveNeighbours u with
      | none => none
      | some cell1 =>
        let r := cell1.UpdateCellStatus
        some { u with Cells := u.Cells.set idx.toNat r.1,
                      CellsUpdated := u.CellsUpdated + r.2 }
  | (_, some _) => some u

/-- Inner loop of `Tick`: the columns of row `i`. -/
def tickRow (u : Universe) (i : Int) : Option Universe :=
  (List.range u.Width.toNat).foldlM (fun u (j : Nat) => tickCell u i j) u

/-- Method `Tick`: the universe afterwards and the returned counter. -/
def Universe.Tick (u : Universe) : Option (Universe × Int) :=
  ((List.range u.Height.toNat).foldlM (fun u (i : Nat) => tickRow u i) u).map
    (fun u1 => (u1, u1.CellsUpdated))

/-! ## Specification-side definitions -/

/-- Life rule in the words of the specification: an alive cell stays alive iff
it has 2 or 3 live neighbours, a dead cell becomes alive iff it has exactly 3. -/
def lifeRule (state : Int) (liveNeighbours : Int) : Int :=
  if state = 1 then
    if liveNeighbours = 2 ∨ liveNeighbours = 3 then 1 else 0
  else
    if liveNeighbours = 3 then 1 else 0

/-- Square universe of side `n`: `Width = Height = n` and `n * n` cells laid out
row-major, the cell at position `k` carrying `X = k / n` and `Y = k % n`. -/
structure Square (u : Universe) (n : Nat) : Prop where
  width : u.Width = n
  height : u.Height = n
  layout : u.Cells.map (fun c => (c.X, c.Y)) =
    (List.range (n * n)).map (fun k => (((k / n : Nat) : Int), ((k % n : Nat) : Int)))

/-- Every State of the universe is 0 or 1. -/
def Binary (u : Universe) : Prop := ∀ c ∈ u.Cells, c.State = 0 ∨ c.State = 1

instance (u : Universe) : Decidable (Binary u) := by unfold Binary; infer_instance

/-- Coordinates inside a grid of side `n`. -/
def inGrid (n : Nat) (r c : Int) : Prop := (0 ≤ r ∧ r < n) ∧ (0 ≤ c ∧ c < n)

instance (n : Nat) (r c : Int) : Decidable (inGrid n r c) := by unfold inGrid; infer_instance

/-- State stored at row `r`, column `c` of a row-major grid of side `n`; 0 outside the grid. -/
def stateAt (u : Universe) (n : Nat) (r c : Int) : Int :=
  if inGrid n r c then ((cellAt u.Cells (r * n + c)).map (fun x => x.State)).getD 0 else 0

/-- The eight offsets `(di, dj)` in `{-1, 0, 1} × {-1, 0, 1}` other than `(0, 0)`. -/
def offsets : List (Int × Int) :=
  [(-1, -1), (-1, 0), (-1, 1), (0, -1), (0, 1), (1, -1), (1, 0), (1, 1)]

/-- Number of offsets whose target lies in the grid and holds a cell of State 1. -/
def liveCount (u : Universe) (n : Nat) (r c : Int) : Nat :=
  offsets.countP (fun d => decide (stateAt u n (r + d.1) (c + d.2) = 1))

/-- Every cell of the universe is dead. -/
def AllDead (u : Universe) : Prop := ∀ c ∈ u.Cells, c.State = 0

instance (u : Universe) : Decidable (AllDead u) := by unfold AllDead; infer_instance

/-- Coordinates of the live cells, in storage order. -/
def liveCells (u : Universe) : List (Int × Int) :=
  (u.Cells.filter (fun c => decide (c.State = 1))).map (fun c => (c.X, c.Y))

/-- Square universe of side `n` with row-major coordinates, counter 0, and State
1 exactly at the listed coordinates. -/
def gridOf (n : Nat) (live : List (Nat × Nat)) : Universe :=
  { CellsUpdated := 0, Width := n, Height := n,
    Cells := (List.range (n * n)).map (fun k =>
      { X := ((k / n : Nat) : Int), Y := ((k % n : Nat) : Int),
        State := if (k / n, k % n) ∈ live then 1 else 0, LiveNeighbours := 0 }) }

/-- Consecutive calls of `Tick`, `k` of them (the frame loop of `ToGif` makes
such calls): the universe afterwards and the values the calls returned. -/
def Universe.Ticks (u : Universe) : Nat → Option (Universe × List Int)
  | 0 => some (u, [])
  | k + 1 =>
    match u.Tick with
    | none => none
    | some (u1, r) => (Universe.Ticks u1 k).map (fun p => (p.1, r :: p.2))

/-- Every `LiveNeighbours` field of the universe lies in `[0, 8]`. -/
def LNBounded (u : Universe) : Prop :=
  ∀ c ∈ u.Cells, 0 ≤ c.LiveNeighbours ∧ c.LiveNeighbours ≤ 8

instance (u : Universe) : Decidable (LNBounded u) := by unfold LNBounded; infer_instance

/-- Invariant of the universes that `newUniverse w _` builds and `Tick`
advances: `Width = Height = w`, the cells are laid out row-major on a grid of
side `w` (there is none when `w ≤ 0`), every State is 0 or 1 and every
`LiveNeighbours` lies in `[0, 8]`. -/
structure Seeded (w : Int) (u : Universe) : Prop where
  width : u.Width = w
  height : u.Height = w
  layout : u.Cells.map (fun c => (c.X, c.Y)) =
    (List.range (w.toNat * w.toNat)).map
      (fun k => (((k / w.toNat : Nat) : Int), ((k % w.toNat : Nat) : Int)))
  binary : Binary u
  bounded : LNBounded u
/-- Visit of the cell stored at position `k`, in the words of the
specification: `GetLiveNeighbours` and then `UpdateCellStatus` are applied to that
cell, the cell is stored back and the flag is added to the running total. -/
def visitCell (u : Universe) (k : Nat) : Option Universe :=
  match u.Cells[k]? with
  | none => none
  | some c =>
    match c.GetLiveNeighbours u with
    | none => none
    | some c1 =>
      some { u with Cells := u.Cells.set k c1.UpdateCellStatus.1,
                    CellsUpdated := u.CellsUpdated + c1.UpdateCellStatus.2 }

/-- Full scan in the words of the specification: every position of the cell
store is visited once, in storage order. -/
def scanAll (u : Universe) : Option Universe :=
  (List.range u.Cells.length).foldlM visitCell u
/-- Offsets of the neighbours that the row-major scan visits before the cell:
the three above it and the one to its left. -/
def visitedOffsets : List (Int × Int) := [(-1, -1), (-1, 0), (-1, 1), (0, -1)]

/-- Offsets of the neighbours that the row-major scan visits after the cell:
the one to its right and the three below it. -/
def laterOffsets : List (Int × Int) := [(0, 1), (1, -1), (1, 0), (1, 1)]

/-- Neighbour count of the sequential semantics: the already visited in-grid
neighbours contribute their State in `after`, the others their State in
`before`. -/
def seqCount (before after : Universe) (n : Nat) (r c : Int) : Nat :=
  visitedOffsets.countP (fun d => decide (stateAt after n (r + d.1) (c + d.2) = 1)) +
  laterOffsets.countP (fun d => decide (stateAt before n (r + d.1) (c + d.2) = 1))

/-- Number of positions whose State in `after` differs from its State in
`before`. -/
def changedCells (before after : Universe) : Nat :=
  (List.range before.Cells.length).countP
    (fun k => decide ((before.Cells[k]?).map (fun x => x.State) ≠
      (after.Cells[k]?).map (fun x => x.State)))

/-- Total number of State changes over `k` consecutive Ticks. -/
def totalChanges (u : Universe) : Nat → Nat
  | 0 => 0
  | k + 1 =>
    match u.Tick with
    | none => 0
    | some (u1, _) => changedCells u u1 + totalChanges u1 k

/-- Invariant of the scan of `Tick` started on `u`, when the positions below
`m` have been visited and `v` is the universe at that point. -/
structure ScanInv (u : Universe) (n m : Nat) (v : Universe) : Prop where
  square : Square v n
  binary : Binary v
  later : ∀ k, m ≤ k →
    (v.Cells[k]?).map (fun x => x.State) = (u.Cells[k]?).map (fun x => x.State)
  counter : v.CellsUpdated = u.CellsUpdated +
    ((List.range m).countP
      (fun k => decide ((u.Cells[k]?).map (fun x => x.State) ≠
        (v.Cells[k]?).map (fun x => x.State))) : Nat)
  earlier : ∀ r c : Int, inGrid n r c → r * n + c < m →
    stateAt v n r c = lifeRule (stateAt u n r c) (seqCount u v n r c)
/-! ## The same functions with Go's 64-bit `int` arithmetic -/

/-- Value of a Go `int` (64-bit two's complement) that holds the low 64 bits of
`x`: the result of an addition or multiplication whose exact value is `x`. -/
def wrapInt64 (x : Int) : Int :=
  (x + 9223372036854775808) % 18446744073709551616 - 9223372036854775808

/-- Values that a Go `int` can hold. -/
def inInt64 (x : Int) : Prop := -9223372036854775808 ≤ x ∧ x < 9223372036854775808

instance (x : Int) : Decidable (inInt64 x) := by unfold inInt64; infer_instance

/-- Method `GetIndex` with 64-bit arithmetic: the product `row*u.Width` and the
sum with `column` wrap. -/
def Universe.GetIndex64 (u : Universe) (row column : Int) : Int × Option String :=
  if row < 0 ∨ row ≥ u.Width then
    (-1, some ("Row index " ++ toString row ++ " out of range"))
  else if column < 0 ∨ column ≥ u.Height then
    (-1, some ("Column index " ++ toString row ++ " out of range"))
  else
    (wrapInt64 (wrapInt64 (row * u.Width) + column), none)

/-- One iteration of the loop of `GetLiveNeighbours` with 64-bit arithmetic:
the sums `c.X+d[0]`, `c.Y+d[1]` and `live_neigbours += ...` wrap. -/
def liveNeighboursStep64 (c : Cell) (u : Universe) (live : Int) (d : Int × Int) : Option Int :=
  match u.GetIndex64 (wrapInt64 (c.X + d.1)) (wrapInt64 (c.Y + d.2)) with
  | (index, none) => (u.GetCellStateByIndex index).map (fun s => wrapInt64 (live + s))
  | (_, some _) => some live

/-- Method `GetLiveNeighbours` with 64-bit arithmetic. -/
def Cell.GetLiveNeighbours64 (c : Cell) (u : Universe) : Option Cell :=
  ((u.Directions [0, 1, -1]).foldlM (liveNeighboursStep64 c u) 0).map
    (fun live => { c with LiveNeighbours := live })

/-- Body of the inner loop of `Tick` with 64-bit arithmetic: the sum
`u.CellsUpdated += cells_updated` wraps. -/
def tickCell64 (u : Universe) (i j : Int) : Option Universe :=
  match u.GetIndex64 i j with
  | (idx, none) =>
    match cellAt u.Cells idx with
    | none => none
    | some cell =>
      match cell.GetLiveNeighbours64 u with
      | none => none
      | some cell1 =>
        let r := cell1.UpdateCellStatus
        some { u with Cells := u.Cells.set idx.toNat r.1,
                      CellsUpdated := wrapInt64 (u.CellsUpdated + r.2) }
  | (_, some _) => some u

/-- Inner loop of `Tick` with 64-bit arithmetic. -/
def tickRow64 (u : Universe) (i : Int) : Option Universe :=
  (List.range u.Width.toNat).foldlM (fun u (j : Nat) => tickCell64 u i j) u

/-- Method `Tick` with 64-bit arithmetic: the universe afterwards and the
returned counter. -/
def Universe.Tick64 (u : Universe) : Option (Universe × Int) :=
  ((List.range u.Height.toNat).foldlM (fun u (i : Nat) => tickRow64 u i) u).map
    (fun u1 => (u1, u1.CellsUpdated))

/-- Consecutive calls of `Tick` with 64-bit arithmetic, `k` of them: the
universe afterwards and the values the calls returned. -/
def Universe.Ticks64 (u : Universe) : Nat → Option (Universe × List Int)
  | 0 => some (u, [])
  | k + 1 =>
    match u.Tick64 with
    | none => none
    | some (u1, r) => (Universe.Ticks64 u1 k).map (fun p => (p.1, r :: p.2))

/-- Total number of State changes over `k` consecutive Ticks with 64-bit
arithmetic. -/
def totalChanges64 (u : Universe) : Nat → Nat
  | 0 => 0
  | k + 1 =>
    match u.Tick64 with
    | none => 0
    | some (u1, _) => changedCells u u1 + totalChanges64 u1 k

/-- The universe with its counter reduced to a 64-bit `int`. -/
def wrapCounter (u : Universe) : Universe :=
  { u with CellsUpdated := wrapInt64 u.CellsUpdated }

/-- The square universe `gridOf n live` with its counter set to `cu`. -/
def gridWithCounter (n : Nat) (live : List (Nat × Nat)) (cu : Int) : Universe :=
  { gridOf n live with CellsUpdated := cu }
/-! ## Auxiliary lemmas -/

theorem Square.length {u : Universe} {n : Nat} (h : Square u n) : u.Cells.length = n * n := by
  have := congrArg List.length h.layout
  simpa using this

theorem flat_lt {n i j : Nat} (hi : i < n) (hj : j < n) : i * n + j < n * n := by
  have : (i + 1) * n ≤ n * n := Nat.mul_le_mul_right n hi
  have e : (i + 1) * n = i * n + n := by ring
  omega

theorem Square.getElem? {u : Universe} {n : Nat} (h : Square u n) {k : Nat} (hk : k < n * n) :
    ∃ c, u.Cells[k]? = some c ∧ c.X = ((k / n : Nat) : Int) ∧ c.Y = ((k % n : Nat) : Int) := by
  have hl := h.length
  have h1 := congrArg (fun l => l[k]?) h.layout
  simp only [List.getElem?_map] at h1
  rw [List.getElem?_eq_getElem (by omega), List.getElem?_eq_getElem (by simpa using hk)] at h1
  simp at h1
  exact ⟨u.Cells[k], List.getElem?_eq_getElem (by omega), h1.1, h1.2⟩

theorem Square.cellAt {u : Universe} {n : Nat} (h : Square u n) {r c : Int} (hg : inGrid n r c) :
    ∃ x, cellAt u.Cells (r * n + c) = some x ∧ x.X = r ∧ x.Y = c := by
  obtain ⟨⟨hr0, hr1⟩, hc0, hc1⟩ := hg
  obtain ⟨i, rfl⟩ := Int.eq_ofNat_of_zero_le hr0
  obtain ⟨j, rfl⟩ := Int.eq_ofNat_of_zero_le hc0
  have hi : i < n := by exact_mod_cast hr1
  have hj : j < n := by exact_mod_cast hc1
  have hk := flat_lt hi hj
  obtain ⟨x, hx, hX, hY⟩ := h.getElem? hk
  refine ⟨x, ?_, ?_, ?_⟩
  · unfold GameOfLife.cellAt
    have e : ((i : Int) * n + j) = ((i * n + j : Nat) : Int) := by push_cast; ring
    rw [e, if_neg (by omega), Int.toNat_ofNat]
    exact hx
  · rw [hX]
    have : (i * n + j) / n = i := by
      rw [Nat.add_comm, Nat.add_mul_div_right _ _ (by omega), Nat.div_eq_of_lt hj]; simp
    rw [this]
  · rw [hY]
    have : (i * n + j) % n = j := by
      rw [Nat.add_comm, Nat.add_mul_mod_self_right, Nat.mod_eq_of_lt hj]
    rw [this]

theorem Square.GetIndex_in {u : Universe} {n : Nat} (h : Square u n) {r c : Int}
    (hg : inGrid n r c) : u.GetIndex r c = (r * n + c, none) := by
  obtain ⟨⟨hr0, hr1⟩, hc0, hc1⟩ := hg
  unfold Universe.GetIndex
  rw [h.width, h.height, if_neg (by omega), if_neg (by omega)]

theorem Square.GetIndex_out {u : Universe} {n : Nat} (h : Square u n) {r c : Int}
    (hg : ¬ inGrid n r c) : ∃ e, u.GetIndex r c = (-1, some e) := by
  unfold inGrid at hg
  unfold Universe.GetIndex
  rw [h.width, h.height]
  by_cases hr : r < 0 ∨ r ≥ (n : Int)
  · rw [if_pos hr]; exact ⟨_, rfl⟩
  · rw [if_neg hr, if_pos (by omega)]; exact ⟨_, rfl⟩

/-- One step of the neighbour loop in a square binary universe adds 1 exactly
when the target is in the grid and holds State 1. -/
theorem liveNeighboursStep_square {u : Universe} {n : Nat} (h : Square u n) (hb : Binary u)
    (c : Cell) (live : Int) (d : Int × Int) :
    liveNeighboursStep c u live d =
      some (live + if stateAt u n (c.X + d.1) (c.Y + d.2) = 1 then 1 else 0) := by
  unfold liveNeighboursStep stateAt
  by_cases hg : inGrid n (c.X + d.1) (c.Y + d.2)
  · obtain ⟨x, hx, -, -⟩ := h.cellAt hg
    rw [h.GetIndex_in hg, if_pos hg]
    simp only [Universe.GetCellStateByIndex, hx, Option.map_some', Option.getD_some]
    have hmem : x ∈ u.Cells := by
      unfold cellAt at hx
      split at hx
      · simp at hx
      · exact List.getElem?_mem hx
    rcases hb x hmem with h0 | h1
    · simp [h0]
    · simp [h1]
  · obtain ⟨e, he⟩ := h.GetIndex_out hg
    rw [he, if_neg hg]
    simp

theorem Directions_eq (u : Universe) :
    u.Directions [0, 1, -1] =
      [(0, 1), (0, -1), (1, 0), (1, 1), (1, -1), (-1, 0), (-1, 1), (-1, -1)] := by
  rfl

/-- In a square binary universe `GetLiveNeighbours` returns and stores the
number of live in-grid neighbours of `(c.X, c.Y)`. -/
theorem GetLiveNeighbours_square {u : Universe} {n : Nat} (h : Square u n) (hb : Binary u)
    (c : Cell) :
    c.GetLiveNeighbours u = some { c with LiveNeighbours := (liveCount u n c.X c.Y : Nat) } := by
  unfold Cell.GetLiveNeighbours
  rw [Directions_eq]
  simp only [List.foldlM_cons, List.foldlM_nil, liveNeighboursStep_square h hb, Option.bind_eq_bind,
    Option.some_bind, Option.pure_def, Option.map_some']
  congr 2
  simp only [liveCount, offsets, List.countP_cons, List.countP_nil]
  push_cast
  simp only [decide_eq_true_eq]
  ring

theorem map_set_same {β : Type} (f : Cell → β) {l : List Cell} {k : Nat} {c c' : Cell}
    (hc : l[k]? = some c) (hf : f c' = f c) : (l.set k c').map f = l.map f := by
  apply List.ext_getElem?
  intro j
  rw [List.getElem?_map, List.getElem?_map, List.getElem?_set]
  by_cases hkj : k = j
  · subst hkj
    have hlt : k < l.length := by
      by_contra hcon
      rw [List.getElem?_eq_none (by omega)] at hc
      exact Option.noConfusion hc
    rw [if_pos rfl, if_pos hlt, hc]
    simp [hf]
  · rw [if_neg hkj]

theorem cellAt_natCast (cells : List Cell) (k : Nat) : cellAt cells (k : Int) = cells[k]? := by
  unfold cellAt
  rw [if_neg (by omega), Int.toNat_ofNat]

theorem UpdateCellStatus_frame (c : Cell) :
    c.UpdateCellStatus.1.X = c.X ∧ c.UpdateCellStatus.1.Y = c.Y ∧
    c.UpdateCellStatus.1.LiveNeighbours = c.LiveNeighbours := by
  unfold Cell.UpdateCellStatus
  split_ifs <;> simp

theorem UpdateCellStatus_binary (c : Cell) (hs : c.State = 0 ∨ c.State = 1) :
    c.UpdateCellStatus.1.State = 0 ∨ c.UpdateCellStatus.1.State = 1 := by
  unfold Cell.UpdateCellStatus
  split_ifs <;> simp [hs]

theorem Square.set_slot {u : Universe} {n : Nat} (h : Square u n) {k : Nat} {c c' : Cell}
    (hc : u.Cells[k]? = some c) (hX : c'.X = c.X) (hY : c'.Y = c.Y) (cu : Int) :
    Square { u with Cells := u.Cells.set k c', CellsUpdated := cu } n := by
  refine ⟨h.width, h.height, ?_⟩
  show (u.Cells.set k c').map (fun c => (c.X, c.Y)) = _
  rw [map_set_same (fun c => (c.X, c.Y)) hc (by simp [hX, hY])]
  exact h.layout

theorem Binary.set_binary_slot {u : Universe} (hb : Binary u) {k : Nat} {c' : Cell}
    (hs : c'.State = 0 ∨ c'.State = 1) (cu : Int) :
    Binary { u with Cells := u.Cells.set k c', CellsUpdated := cu } := by
  intro x hx
  rcases List.mem_or_eq_of_mem_set hx with hm | he
  · exact hb x hm
  · rw [he]; exact hs

/-- Cell stored by the body of the loop of `Tick`: the neighbour count is
written first, then the update rule is applied. -/
theorem tickCell_square {u : Universe} {n : Nat} (h : Square u n) (hb : Binary u) {i j : Nat}
    (hi : i < n) (hj : j < n) :
    ∃ c, u.Cells[i * n + j]? = some c ∧ c.X = i ∧ c.Y = j ∧
      tickCell u i j = some
        { u with
          Cells := u.Cells.set (i * n + j)
            (Cell.UpdateCellStatus { c with LiveNeighbours := (liveCount u n i j : Nat) }).1,
          CellsUpdated := u.CellsUpdated +
            (Cell.UpdateCellStatus { c with LiveNeighbours := (liveCount u n i j : Nat) }).2 } := by
  have hg : inGrid n (i : Int) (j : Int) := ⟨⟨by omega, by omega⟩, by omega, by omega⟩
  obtain ⟨c, hc, hX, hY⟩ := h.cellAt hg
  have e : ((i : Int) * n + j) = ((i * n + j : Nat) : Int) := by push_cast; ring
  refine ⟨c, ?_, hX, hY, ?_⟩
  · rw [← cellAt_natCast, ← e]; exact hc
  · unfold tickCell
    rw [h.GetIndex_in hg]
    simp only [hc, GetLiveNeighbours_square h hb, hX, hY]
    rw [e, Int.toNat_ofNat]

/-! ## The update rule -/

/-- C2: `UpdateCellStatus` implements the life transition function.  The State
afterwards is 0 if the cell was alive with fewer than 2 or more than 3 live
neighbours, is 1 if the cell was dead with exactly 3, and is the State before in
every other case; in particular an alive cell with 2 or 3 live neighbours stays
alive and a dead cell with exactly 3 becomes alive. -/
theorem UpdateCellStatus_transition (c : Cell) (hs : c.State = 0 ∨ c.State = 1) :
    (c.State = 1 ∧ (c.LiveNeighbours < 2 ∨ c.LiveNeighbours > 3) →
        c.UpdateCellStatus.1.State = 0) ∧
    (c.State = 0 ∧ c.LiveNeighbours = 3 → c.UpdateCellStatus.1.State = 1) ∧
    (¬ (c.State = 1 ∧ (c.LiveNeighbours < 2 ∨ c.LiveNeighbours > 3)) ∧
        ¬ (c.State = 0 ∧ c.LiveNeighbours = 3) →
        c.UpdateCellStatus.1.State = c.State) ∧
    (c.State = 1 ∧ (c.LiveNeighbours = 2 ∨ c.LiveNeighbours = 3) →
        c.UpdateCellStatus.1.State = 1) ∧
    c.UpdateCellStatus.1.State = lifeRule c.State c.LiveNeighbours := by
  unfold Cell.UpdateCellStatus lifeRule
  rcases hs with hs | hs
  · simp only [hs]
    by_cases h3 : c.LiveNeighbours = 3 <;> simp [h3, hs]
  · simp only [hs]
    by_cases hd : c.LiveNeighbours < 2 ∨ c.LiveNeighbours > 3
    · have h2 : ¬ (c.LiveNeighbours = 2 ∨ c.LiveNeighbours = 3) := by omega
      simp [hd, h2]
    · have h2 : c.LiveNeighbours = 2 ∨ c.LiveNeighbours = 3 := by omega
      simp [hd, h2, hs]

/-- Witness for C2: an alive cell with four live neighbours and a dead cell with
three. -/
theorem UpdateCellStatus_transition_witness :
    (Cell.UpdateCellStatus ⟨0, 0, 1, 4⟩).1.State = 0 ∧
    (Cell.UpdateCellStatus ⟨0, 0, 0, 3⟩).1.State = 1 :=
  ⟨(UpdateCellStatus_transition ⟨0, 0, 1, 4⟩ (Or.inr rfl)).1 ⟨rfl, Or.inr (by decide)⟩,
   (UpdateCellStatus_transition ⟨0, 0, 0, 3⟩ (Or.inl rfl)).2.1 ⟨rfl, rfl⟩⟩

/-- C3: for every cell, whatever its State and LiveNeighbours, the flag
returned by `UpdateCellStatus` is 1 exactly when the State after the call
differs from the State before, is 0 exactly when it does not, and is never
anything other than 0 or 1. -/
theorem UpdateCellStatus_flag (c : Cell) :
    (c.UpdateCellStatus.2 = 1 ↔ c.UpdateCellStatus.1.State ≠ c.State) ∧
    (c.UpdateCellStatus.2 = 0 ↔ c.UpdateCellStatus.1.State = c.State) ∧
    (c.UpdateCellStatus.2 = 0 ∨ c.UpdateCellStatus.2 = 1) := by
  unfold Cell.UpdateCellStatus
  by_cases h1 : c.State = 1
  · by_cases hd : c.LiveNeighbours < 2 ∨ c.LiveNeighbours > 3 <;> simp [h1, hd]
  · by_cases h0 : c.State = 0
    · by_cases h3 : c.LiveNeighbours = 3 <;> simp [h0, h3]
    · simp [h1, h0]

/-! ## Coordinate mapping -/

/-- C5, evaluated on a universe of width 2 and height 3: `GetIndex` accepts both
(0, 2) and (1, 0) and gives them the same index 2, and decoding that index by
division and remainder gives (1, 0), not (0, 2). -/
theorem GetIndex_collision_2x3 :
    Universe.GetIndex ⟨0, 2, 3, []⟩ 0 2 = (2, none) ∧
    Universe.GetIndex ⟨0, 2, 3, []⟩ 1 0 = (2, none) ∧
    ((2 : Int) / 2, (2 : Int) % 2) ≠ ((0 : Int), (2 : Int)) := by
  refine ⟨?_, ?_, ?_⟩ <;> decide



theorem foldlM_option_invariant {α β : Type} (P : β → Prop) (f : β → α → Option β) (l : List α)
    (hf : ∀ b a, a ∈ l → P b → ∃ b', f b a = some b' ∧ P b') (b : β) (hb : P b) :
    ∃ b', l.foldlM f b = some b' ∧ P b' := by
  induction l generalizing b with
  | nil => exact ⟨b, rfl, hb⟩
  | cons a l ih =>
    obtain ⟨b1, h1, hP1⟩ := hf b a (List.mem_cons_self a l) hb
    obtain ⟨b2, h2, hP2⟩ := ih (fun b x hx hPb => hf b x (List.mem_cons_of_mem a hx) hPb) b1 hP1
    exact ⟨b2, by rw [List.foldlM_cons, h1]; exact h2, hP2⟩

/-- Property of square universes of side `n` that the body of the loop of `Tick`
preserves is preserved by `Tick`, which returns. -/
theorem Tick_invariant {n : Nat} (P : Universe → Prop) (hP : ∀ u, P u → Square u n)
    (hstep : ∀ u (i j : Nat), P u → i < n → j < n → ∃ u', tickCell u i j = some u' ∧ P u')
    (u : Universe) (hu : P u) : ∃ u', u.Tick = some (u', u'.CellsUpdated) ∧ P u' := by
  have hrow : ∀ (v : Universe) (i : Nat), i ∈ List.range (u.Height.toNat) → P v →
      ∃ v', tickRow v i = some v' ∧ P v' := by
    intro v i hi hv
    rw [(hP u hu).height, Int.toNat_ofNat, List.mem_range] at hi
    unfold tickRow
    rw [(hP v hv).width, Int.toNat_ofNat]
    exact foldlM_option_invariant P _ _
      (fun b j hj hb => hstep b i j hb hi (List.mem_range.mp hj)) v hv
  obtain ⟨u', h1, h2⟩ := foldlM_option_invariant P _ _ hrow u hu
  refine ⟨u', ?_, h2⟩
  unfold Universe.Tick
  rw [h1]; rfl

theorem AllDead.binary {u : Universe} (hd : AllDead u) : Binary u :=
  fun c hc => Or.inl (hd c hc)

theorem AllDead.stateAt {u : Universe} (hd : AllDead u) (n : Nat) (r c : Int) :
    stateAt u n r c = 0 := by
  unfold GameOfLife.stateAt
  split
  · unfold cellAt
    split
    · rfl
    · cases hx : u.Cells[(r * n + c).toNat]? with
      | none => rfl
      | some x => simpa using hd x (List.getElem?_mem hx)
  · rfl

theorem AllDead.liveCount {u : Universe} (hd : AllDead u) (n : Nat) (r c : Int) :
    liveCount u n r c = 0 := by
  unfold GameOfLife.liveCount
  simp [hd.stateAt]

theorem tickCell_dead {u : Universe} {n : Nat} (h : Square u n) (hd : AllDead u) {i j : Nat}
    (hi : i < n) (hj : j < n) :
    ∃ u', tickCell u i j = some u' ∧
      (Square u' n ∧ AllDead u' ∧ u'.CellsUpdated = u.CellsUpdated) := by
  obtain ⟨c, hc, hX, hY, ht⟩ := tickCell_square h hd.binary hi hj
  have hc0 : c.State = 0 := hd c (List.getElem?_mem hc)
  have hupd : Cell.UpdateCellStatus { c with LiveNeighbours := (liveCount u n i j : Nat) } =
      ({ c with LiveNeighbours := 0 }, 0) := by
    rw [hd.liveCount]
    simp [Cell.UpdateCellStatus, hc0]
  rw [hupd] at ht
  refine ⟨_, ht, h.set_slot hc (by rfl) (by rfl) _, ?_, by simp⟩
  intro x hx
  rcases List.mem_or_eq_of_mem_set hx with hm | he
  · exact hd x hm
  · rw [he]; exact hc0

/-- C7: a fully dead square universe stays fully dead.  After any number `k` of
consecutive calls of `Tick` every cell still has State 0, `CellsUpdated` has its
initial value, and every call returned that value. -/
theorem dead_grid_stays_dead (u : Universe) (n : Nat) (h : Square u n) (hd : AllDead u)
    (k : Nat) :
    ∃ u', u.Ticks k = some (u', List.replicate k u.CellsUpdated) ∧
      AllDead u' ∧ u'.CellsUpdated = u.CellsUpdated := by
  induction k generalizing u with
  | zero => exact ⟨u, rfl, hd, rfl⟩
  | succ k ih =>
    obtain ⟨u1, h1, hsq1, hd1, hcu1⟩ :=
      Tick_invariant (fun v => Square v n ∧ AllDead v ∧ v.CellsUpdated = u.CellsUpdated)
        (fun v hv => hv.1)
        (fun v i j hv hi hj => by
          obtain ⟨v', e, a, b, c⟩ := tickCell_dead hv.1 hv.2.1 hi hj
          exact ⟨v', e, a, b, c.trans hv.2.2⟩)
        u ⟨h, hd, rfl⟩
    obtain ⟨u2, h2, hd2, hcu2⟩ := ih u1 hsq1 hd1
    refine ⟨u2, ?_, hd2, hcu2.trans hcu1⟩
    simp only [Universe.Ticks, h1, h2, hcu1, Option.map_some', List.replicate_succ]

/-- Witness for C7: three ticks of the dead 3 x 3 universe. -/
theorem dead_grid_stays_dead_witness :
    ∃ u', (gridOf 3 []).Ticks 3 = some (u', List.replicate 3 (gridOf 3 []).CellsUpdated) ∧
      AllDead u' ∧ u'.CellsUpdated = (gridOf 3 []).CellsUpdated :=
  dead_grid_stays_dead (gridOf 3 []) 3 ⟨rfl, rfl, by decide⟩ (by decide) 3



theorem Square.GetIndex_isNone {u : Universe} {n : Nat} (h : Square u n) (r c : Int) :
    (u.GetIndex r c).2.isNone = decide (inGrid n r c) := by
  by_cases hg : inGrid n r c
  · rw [h.GetIndex_in hg]; simp [hg]
  · obtain ⟨e, he⟩ := h.GetIndex_out hg
    rw [he]; simp [hg]

theorem liveCount_corner (u : Universe) (n : Nat) : liveCount u n 0 0 ≤ 3 := by
  have hout : ∀ r c : Int, r < 0 ∨ c < 0 → stateAt u n r c ≠ 1 := by
    intro r c hrc
    unfold stateAt
    rw [if_neg (by unfold inGrid; omega)]
    decide
  unfold liveCount offsets
  simp only [List.countP_cons, List.countP_nil]
  simp [hout]
  split_ifs <;> omega

/-- C6: in a square binary universe, `GetLiveNeighbours` on a cell of the
universe returns, and the field `LiveNeighbours` afterwards is the number of
offsets in `{-1,0,1} × {-1,0,1}` other than `(0,0)` whose target lies in the grid
and holds a cell of State 1; the coordinates and State of the cell are kept, so
no State in the universe is modified. -/
theorem GetLiveNeighbours_count (u : Universe) (n : Nat) (h : Square u n) (hb : Binary u)
    (k : Nat) (c : Cell) (hc : u.Cells[k]? = some c) :
    ∃ c', c.GetLiveNeighbours u = some c' ∧
      c'.LiveNeighbours = (liveCount u n c.X c.Y : Nat) ∧
      c'.X = c.X ∧ c'.Y = c.Y ∧ c'.State = c.State ∧
      (u.Cells.set k c').map (fun x => x.State) = u.Cells.map (fun x => x.State) ∧
      (0, 0) ∉ offsets ∧ offsets.length = 8 :=
  ⟨_, GetLiveNeighbours_square h hb c, rfl, rfl, rfl, rfl,
    map_set_same (fun x => x.State) hc rfl, by decide, rfl⟩

/-- Witness for C6: the corner cell of the 2 x 2 universe whose other three
cells are alive. -/
theorem GetLiveNeighbours_count_witness :
    ∃ c', Cell.GetLiveNeighbours ⟨0, 0, 0, 0⟩ (gridOf 2 [(0, 1), (1, 0), (1, 1)]) = some c' ∧
      c'.LiveNeighbours = (liveCount (gridOf 2 [(0, 1), (1, 0), (1, 1)]) 2 0 0 : Nat) :=
  let ⟨c', h1, h2, _⟩ := GetLiveNeighbours_count (gridOf 2 [(0, 1), (1, 0), (1, 1)]) 2
    ⟨rfl, rfl, by decide⟩ (by decide) 0 ⟨0, 0, 0, 0⟩ (by decide)
  ⟨c', h1, h2⟩

/-- C9: edge truncation at the corner.  In an `N x N` universe with `N ≥ 1`,
among the eight offsets that `GetLiveNeighbours` examines for the cell at
`(0,0)`, `GetIndex` succeeds exactly for `(0,1)`, `(1,0)`, `(1,1)` when `N ≥ 2` and
for none when `N = 1`, so for at most 3; and when all States are 0 or 1 the
`LiveNeighbours` of that cell after `GetLiveNeighbours` is at most 3. -/
theorem corner_neighbours (N : Nat) (hN : 1 ≤ N) (u : Universe) (h : Square u N) (c : Cell)
    (hX : c.X = 0) (hY : c.Y = 0) :
    (u.Directions [0, 1, -1]).filter (fun d => (u.GetIndex (c.X + d.1) (c.Y + d.2)).2.isNone) =
      (if 2 ≤ N then [(0, 1), (1, 0), (1, 1)] else []) ∧
    ((u.Directions [0, 1, -1]).filter
      (fun d => (u.GetIndex (c.X + d.1) (c.Y + d.2)).2.isNone)).length ≤ 3 ∧
    (Binary u → ∃ c', c.GetLiveNeighbours u = some c' ∧
      0 ≤ c'.LiveNeighbours ∧ c'.LiveNeighbours ≤ 3) := by
  have hfil : (u.Directions [0, 1, -1]).filter
      (fun d => (u.GetIndex (c.X + d.1) (c.Y + d.2)).2.isNone) =
      (if 2 ≤ N then [(0, 1), (1, 0), (1, 1)] else []) := by
    rw [Directions_eq]
    simp only [h.GetIndex_isNone, hX, hY]
    by_cases h2 : 2 ≤ N
    · have h1 : (1 : Int) < N := by omega
      have h0 : 0 < N := by omega
      simp [List.filter_cons, inGrid, h2, h1, h0]
    · have h1 : ¬ (1 : Int) < N := by omega
      simp [List.filter_cons, inGrid, h2, h1]
  refine ⟨hfil, ?_, ?_⟩
  · rw [hfil]; split <;> simp
  · intro hb
    refine ⟨_, GetLiveNeighbours_square h hb c, ?_, ?_⟩
    · show (0 : Int) ≤ (liveCount u N c.X c.Y : Nat)
      omega
    · show ((liveCount u N c.X c.Y : Nat) : Int) ≤ 3
      rw [hX, hY]
      have := liveCount_corner u N
      omega

/-- Witness for C9: the corner cell of the 2 x 2 universe whose other three
cells are alive. -/
theorem corner_neighbours_witness :
    ((gridOf 2 [(0, 1), (1, 0), (1, 1)]).Directions [0, 1, -1]).filter
      (fun d => ((gridOf 2 [(0, 1), (1, 0), (1, 1)]).GetIndex (0 + d.1) (0 + d.2)).2.isNone) =
      [(0, 1), (1, 0), (1, 1)] :=
  (corner_neighbours 2 (by decide) (gridOf 2 [(0, 1), (1, 0), (1, 1)]) ⟨rfl, rfl, by decide⟩
    ⟨0, 0, 0, 0⟩ rfl rfl).1



theorem newUniverse_inner (i : Int) (l : List Nat) (u : Universe) :
    l.foldl (fun u (j : Nat) => { u with Cells := u.Cells ++ [newCell u i j] }) u =
      { u with Cells := u.Cells ++ l.map (fun (j : Nat) => newCell u i j) } := by
  induction l generalizing u with
  | nil => simp
  | cons a l ih =>
    rw [List.foldl_cons, ih]
    simp [newCell]

theorem newUniverse_outer (l : List Nat) (u : Universe) :
    l.foldl (fun u (i : Nat) =>
        (List.range u.Width.toNat).foldl
          (fun u (j : Nat) => { u with Cells := u.Cells ++ [newCell u i j] }) u)
      u =
      { u with Cells := u.Cells ++
          l.flatMap (fun (i : Nat) =>
            (List.range u.Width.toNat).map (fun (j : Nat) => newCell u i j)) } := by
  induction l generalizing u with
  | nil => simp
  | cons a l ih =>
    rw [List.foldl_cons, ih, newUniverse_inner]
    simp [newCell]

/-- Closed form of `newUniverse`: a square universe of side `w` whose cells are
created row by row. -/
theorem newUniverse_eq (w h : Int) :
    newUniverse w h =
      { CellsUpdated := 0, Width := w, Height := w,
        Cells := (List.range w.toNat).flatMap (fun (i : Nat) =>
          (List.range w.toNat).map (fun (j : Nat) => newCell ⟨0, w, w, []⟩ i j)) } := by
  unfold newUniverse
  simp only []
  rw [newUniverse_outer]
  simp



theorem mem_newUniverse {w h : Int} {c : Cell} (hc : c ∈ (newUniverse w h).Cells) :
    ∃ i j : Nat, (i : Int) < w ∧ (j : Int) < w ∧ c = newCell ⟨0, w, w, []⟩ i j := by
  rw [newUniverse_eq] at hc
  simp only [List.mem_flatMap, List.mem_map, List.mem_range] at hc
  obtain ⟨i, hi, j, hj, rfl⟩ := hc
  exact ⟨i, j, by omega, by omega, rfl⟩

/-- State given by `newUniverse` to the cell at row `i`, column `j`, with Go's
truncated division and remainder replaced by the floor ones, which agree with
them on the non-negative numbers at hand. -/
theorem newCell_state (w : Int) (hw : 0 ≤ w) (i j : Nat) :
    (newCell ⟨0, w, w, []⟩ i j).X = i ∧ (newCell ⟨0, w, w, []⟩ i j).Y = j ∧
    (newCell ⟨0, w, w, []⟩ i j).State =
      if (j : Int) > w / 2 ∧ (i : Int) < w / 2 ∧ ((i : Int) % 2 = 0 ∨ (i : Int) % 7 = 0)
      then 1 else 0 := by
  have hi : (0 : Int) ≤ i := by omega
  unfold newCell
  simp only [Int.tdiv_eq_ediv hw (by decide : (0 : Int) ≤ 2),
    Int.tmod_eq_emod hi (by decide : (0 : Int) ≤ 2), Int.tmod_eq_emod hi (by decide : (0 : Int) ≤ 7)]
  by_cases h1 : (j : Int) > w / 2 ∧ (i : Int) < w / 2
  · by_cases h2 : (i : Int) % 2 = 0 ∨ (i : Int) % 7 = 0
    · rw [if_pos h1, if_pos h2, if_pos ⟨h1.1, h1.2, h2⟩]
      exact ⟨rfl, rfl, rfl⟩
    · rw [if_pos h1, if_neg h2, if_neg (fun hh => h2 hh.2.2)]
      exact ⟨rfl, rfl, rfl⟩
  · rw [if_neg h1, if_neg (fun hh => h1 ⟨hh.1, hh.2.1⟩)]
    exact ⟨rfl, rfl, rfl⟩

/-- C10: seeding predicate.  Every cell of the universe returned by
`newUniverse` has State 1 if and only if its column `Y` exceeds `Width / 2`, its
row `X` is below `Height / 2`, and `X` is even or a multiple of 7; it has
State 0 otherwise.  For width 5 and height 5 the alive coordinates are exactly
(0,3) and (0,4). -/
theorem newUniverse_seed (w h : Int) (c : Cell) (hc : c ∈ (newUniverse w h).Cells) :
    (c.State = 1 ↔
      (c.Y > (newUniverse w h).Width / 2 ∧ c.X < (newUniverse w h).Height / 2 ∧
        (c.X % 2 = 0 ∨ c.X % 7 = 0))) ∧
    (¬ (c.Y > (newUniverse w h).Width / 2 ∧ c.X < (newUniverse w h).Height / 2 ∧
        (c.X % 2 = 0 ∨ c.X % 7 = 0)) → c.State = 0) ∧
    (∀ p : Int × Int, p ∈ liveCells (newUniverse 5 5) ↔ p = (0, 3) ∨ p = (0, 4)) := by
  obtain ⟨i, j, hi, hj, rfl⟩ := mem_newUniverse hc
  obtain ⟨hX, hY, hS⟩ := newCell_state w (by omega) i j
  have hW : (newUniverse w h).Width = w := by rw [newUniverse_eq]
  have hH : (newUniverse w h).Height = w := by rw [newUniverse_eq]
  rw [hW, hH, hX, hY, hS]
  refine ⟨?_, ?_, ?_⟩
  · split_ifs with hcond
    · exact ⟨fun _ => hcond, fun _ => rfl⟩
    · exact ⟨fun h01 => absurd h01 (by decide), fun hh => absurd hh hcond⟩
  · intro hn
    rw [if_neg hn]
  · intro p
    have : liveCells (newUniverse 5 5) = [(0, 3), (0, 4)] := by decide
    rw [this]
    simp

/-- Witness for C10: the cell at row 0, column 3 of `newUniverse 5 5`. -/
theorem newUniverse_seed_witness :
    (⟨0, 3, 1, 0⟩ : Cell) ∈ (newUniverse 5 5).Cells ∧
    ((3 : Int) > (newUniverse 5 5).Width / 2 ∧ (0 : Int) < (newUniverse 5 5).Height / 2 ∧
        ((0 : Int) % 2 = 0 ∨ (0 : Int) % 7 = 0)) :=
  ⟨by decide, (newUniverse_seed 5 5 ⟨0, 3, 1, 0⟩ (by decide)).1.mp rfl⟩



/-- C1, evaluated on the 3 x 3 universe whose bottom row is alive: the cell at
row 1, column 2 is dead with two live neighbours before the tick, so the life
rule leaves it dead, but `Tick` makes it alive, because the cell at row 1,
column 1 has already been made alive when its neighbours are counted. -/
theorem Tick_not_synchronous_3x3 :
    stateAt (gridOf 3 [(2, 0), (2, 1), (2, 2)]) 3 1 2 = 0 ∧
    liveCount (gridOf 3 [(2, 0), (2, 1), (2, 2)]) 3 1 2 = 2 ∧
    lifeRule (stateAt (gridOf 3 [(2, 0), (2, 1), (2, 2)]) 3 1 2)
      (liveCount (gridOf 3 [(2, 0), (2, 1), (2, 2)]) 3 1 2) = 0 ∧
    ((gridOf 3 [(2, 0), (2, 1), (2, 2)]).Tick).map (fun p => stateAt p.1 3 1 2) = some 1 ∧
    ((gridOf 3 [(2, 0), (2, 1), (2, 2)]).Tick).map (fun p => liveCells p.1) =
      some [(1, 1), (1, 2), (2, 0), (2, 2)] := by
  refine ⟨?_, ?_, ?_, ?_, ?_⟩ <;> decide

/-- C8, evaluated on the 5 x 5 universe whose live cells are the vertical line
(1,2), (2,2), (3,2): one `Tick` kills all three cells and makes none alive, so no
cell is alive afterwards (the horizontal line (2,1), (2,2), (2,3) is not
produced), the call returns 3, and a second `Tick` leaves the grid dead. -/
theorem Tick_blinker_5x5 :
    liveCells (gridOf 5 [(1, 2), (2, 2), (3, 2)]) = [(1, 2), (2, 2), (3, 2)] ∧
    ((gridOf 5 [(1, 2), (2, 2), (3, 2)]).Tick).map (fun p => (liveCells p.1, p.2)) =
      some ([], 3) ∧
    ((gridOf 5 [(1, 2), (2, 2), (3, 2)]).Ticks 2).map (fun p => (liveCells p.1, p.2)) =
      some ([], [3, 3]) := by
  refine ⟨?_, ?_, ?_⟩ <;> decide

/-! ## Construction -/

/-- C11, evaluated at width 2 and height 3: `newUniverse` returns a universe
with `Width = 2`, `CellsUpdated = 0`, but `Height = 2` and four cells, where the
height asked for is 3 and the number of cells asked for is 6. -/
theorem newUniverse_ignores_height :
    (newUniverse 2 3).Width = 2 ∧ (newUniverse 2 3).CellsUpdated = 0 ∧
    (newUniverse 2 3).Height = 2 ∧ (newUniverse 2 3).Height ≠ 3 ∧
    (newUniverse 2 3).Cells.length = 4 ∧ (newUniverse 2 3).Cells.length ≠ 2 * 3 := by
  refine ⟨?_, ?_, ?_, ?_, ?_, ?_⟩ <;> decide

/-- C20, evaluated on a universe of width 5 and height 5: for row 9 the error
text is "Row index 9 out of range", and for row 1, column 7 (row in range,
column out of range) the error text is "Column index 1 out of range", which
prints the row, not the offending column 7. -/
theorem GetIndex_column_error_prints_row :
    Universe.GetIndex ⟨0, 5, 5, []⟩ 9 7 = (-1, some "Row index 9 out of range") ∧
    Universe.GetIndex ⟨0, 5, 5, []⟩ 1 7 = (-1, some "Column index 1 out of range") ∧
    Universe.GetIndex ⟨0, 5, 5, []⟩ 1 7 ≠ (-1, some "Column index 7 out of range") := by
  refine ⟨?_, ?_, ?_⟩ <;> decide

/-! ## Universes built by `newUniverse` and advanced by `Tick` -/

theorem range_flatMap_range {γ : Type} (a n : Nat) (f : Nat → Nat → γ) :
    (List.range a).flatMap (fun i => (List.range n).map (fun j => f i j)) =
      (List.range (a * n)).map (fun k => f (k / n) (k % n)) := by
  induction a with
  | zero => simp
  | succ a ih =>
    rw [List.range_succ, List.flatMap_append, ih, List.flatMap_singleton, Nat.succ_mul,
      List.range_add, List.map_append, List.map_map]
    congr 1
    apply List.map_congr_left
    intro j hj
    have hj' : j < n := List.mem_range.mp hj
    have hn : 0 < n := by omega
    have h1 : (a * n + j) / n = a := by
      rw [Nat.add_comm, Nat.add_mul_div_right _ _ hn, Nat.div_eq_of_lt hj']; simp
    have h2 : (a * n + j) % n = j := by
      rw [Nat.add_comm, Nat.add_mul_mod_self_right, Nat.mod_eq_of_lt hj']
    simp [h1, h2]

theorem newCell_coords (u : Universe) (i j : Int) :
    (newCell u i j).X = i ∧ (newCell u i j).Y = j ∧
    ((newCell u i j).State = 0 ∨ (newCell u i j).State = 1) ∧
    (newCell u i j).LiveNeighbours = 0 := by
  unfold newCell
  simp only []
  split_ifs <;> simp

theorem newUniverse_seeded (w h : Int) : Seeded w (newUniverse w h) := by
  rw [newUniverse_eq]
  refine ⟨rfl, rfl, ?_, ?_, ?_⟩
  · show List.map _ (List.flatMap _ _) = _
    rw [range_flatMap_range w.toNat w.toNat (fun i j => newCell ⟨0, w, w, []⟩ (i : Nat) (j : Nat)),
      List.map_map]
    apply List.map_congr_left
    intro k _
    simp [(newCell_coords _ _ _).1, (newCell_coords _ _ _).2.1]
  · intro c hc
    simp only [List.mem_flatMap, List.mem_map] at hc
    obtain ⟨i, _, j, _, rfl⟩ := hc
    exact (newCell_coords _ _ _).2.2.1
  · intro c hc
    simp only [List.mem_flatMap, List.mem_map] at hc
    obtain ⟨i, _, j, _, rfl⟩ := hc
    rw [(newCell_coords _ _ _).2.2.2]
    decide

theorem Seeded.square {w : Int} {u : Universe} (h : Seeded w u) (hw : 0 ≤ w) :
    Square u w.toNat :=
  ⟨by rw [h.width, Int.toNat_of_nonneg hw], by rw [h.height, Int.toNat_of_nonneg hw], h.layout⟩

theorem Seeded.nil {w : Int} {u : Universe} (h : Seeded w u) (hw : w ≤ 0) : u.Cells = [] := by
  have h0 : w.toNat = 0 := by omega
  have := h.layout
  rw [h0] at this
  simpa using this

theorem liveCount_le (u : Universe) (n : Nat) (r c : Int) : liveCount u n r c ≤ 8 := by
  unfold liveCount
  exact List.countP_le_length _

theorem tickCell_seeded {w : Int} {u : Universe} (h : Seeded w u) (hw : 0 ≤ w) {i j : Nat}
    (hi : i < w.toNat) (hj : j < w.toNat) :
    ∃ u', tickCell u i j = some u' ∧ Seeded w u' := by
  obtain ⟨c, hc, hX, hY, ht⟩ := tickCell_square (h.square hw) h.binary hi hj
  have hfr := UpdateCellStatus_frame { c with LiveNeighbours := (liveCount u w.toNat i j : Nat) }
  have hsq := (h.square hw).set_slot hc hfr.1 hfr.2.1
    (u.CellsUpdated +
      (Cell.UpdateCellStatus { c with LiveNeighbours := (liveCount u w.toNat i j : Nat) }).2)
  have hbin := UpdateCellStatus_binary { c with LiveNeighbours := (liveCount u w.toNat i j : Nat) }
    (h.binary c (List.getElem?_mem hc))
  refine ⟨_, ht, h.width, h.height, hsq.layout, h.binary.set_binary_slot hbin _, ?_⟩
  intro x hx
  rcases List.mem_or_eq_of_mem_set hx with hm | he
  · exact h.bounded x hm
  · rw [he, hfr.2.2]
    have := liveCount_le u w.toNat i j
    show (0 : Int) ≤ (liveCount u w.toNat i j : Nat) ∧ ((liveCount u w.toNat i j : Nat) : Int) ≤ 8
    omega

theorem Tick_seeded {w : Int} {u : Universe} (h : Seeded w u) :
    ∃ u', u.Tick = some (u', u'.CellsUpdated) ∧ Seeded w u' := by
  by_cases hw : 0 ≤ w
  · exact Tick_invariant (Seeded w) (fun v hv => hv.square hw)
      (fun v i j hv hi hj => tickCell_seeded hv hw hi hj) u h
  · refine ⟨u, ?_, h⟩
    unfold Universe.Tick
    have h0 : u.Height.toNat = 0 := by rw [h.height]; omega
    rw [h0]
    rfl

theorem Ticks_seeded {w : Int} (k : Nat) {u : Universe} (h : Seeded w u) :
    ∃ u' rs, u.Ticks k = some (u', rs) ∧ Seeded w u' := by
  induction k generalizing u with
  | zero => exact ⟨u, [], rfl, h⟩
  | succ k ih =>
    obtain ⟨u1, h1, hs1⟩ := Tick_seeded h
    obtain ⟨u2, rs, h2, hs2⟩ := ih hs1
    exact ⟨u2, u1.CellsUpdated :: rs, by simp only [Universe.Ticks, h1, h2, Option.map_some'], hs2⟩

theorem Seeded.coords {w : Int} {u : Universe} (h : Seeded w u) {pos : Nat} {c : Cell}
    (hc : u.Cells[pos]? = some c) :
    (0 ≤ c.X ∧ c.X < u.Height) ∧ (0 ≤ c.Y ∧ c.Y < u.Width) ∧
    u.GetIndex c.X c.Y = ((pos : Int), none) ∧
    c.X = (pos : Int) / u.Width ∧ c.Y = (pos : Int) % u.Width := by
  by_cases hw : w ≤ 0
  · rw [h.nil hw] at hc
    simp at hc
  · have hw0 : 0 ≤ w := by omega
    have hsq := h.square hw0
    have hn : (w.toNat : Int) = w := Int.toNat_of_nonneg hw0
    have hpos : pos < w.toNat * w.toNat := by
      rw [← hsq.length]
      by_contra hcon
      rw [List.getElem?_eq_none (by omega)] at hc
      exact Option.noConfusion hc
    obtain ⟨c', hc', hX, hY⟩ := hsq.getElem? hpos
    rw [hc] at hc'
    cases hc'
    have hnpos : 0 < w.toNat := by omega
    have hdiv : pos / w.toNat < w.toNat := Nat.div_lt_of_lt_mul hpos
    have hmod : pos % w.toNat < w.toNat := Nat.mod_lt _ hnpos
    have hg : inGrid w.toNat c.X c.Y := by
      rw [hX, hY]
      exact ⟨⟨Int.ofNat_zero_le _, by exact_mod_cast hdiv⟩, Int.ofNat_zero_le _,
        by exact_mod_cast hmod⟩
    refine ⟨?_, ?_, ?_, ?_, ?_⟩
    · rw [h.height, ← hn]; exact hg.1
    · rw [h.width, ← hn]; exact hg.2
    · rw [hsq.GetIndex_in hg, hX, hY]
      have := Nat.div_add_mod pos w.toNat
      have e : ((pos / w.toNat : Nat) : Int) * (w.toNat : Int) + ((pos % w.toNat : Nat) : Int) =
          (pos : Int) := by
        rw [Nat.mul_comm] at this
        exact_mod_cast this
      rw [e]
    · rw [hX, h.width, ← hn]; norm_cast
    · rw [hY, h.width, ← hn]; norm_cast

theorem Seeded.valid_index {w : Int} {u : Universe} (h : Seeded w u) {row column idx : Int}
    (hi : u.GetIndex row column = (idx, none)) :
    0 ≤ idx ∧ idx < u.Cells.length ∧ (cellAt u.Cells idx).isSome = true := by
  by_cases hw : w ≤ 0
  · unfold Universe.GetIndex at hi
    rw [h.width, if_pos (by omega)] at hi
    simp at hi
  · have hw0 : 0 ≤ w := by omega
    have hsq := h.square hw0
    by_cases hg : inGrid w.toNat row column
    · rw [hsq.GetIndex_in hg] at hi
      obtain ⟨x, hx, -, -⟩ := hsq.cellAt hg
      have hidx : row * (w.toNat : Int) + column = idx := by
        have := congrArg Prod.fst hi
        exact this
      rw [hidx] at hx
      refine ⟨?_, ?_, by rw [hx]; rfl⟩
      · unfold cellAt at hx
        by_contra hcon
        rw [if_pos (by omega)] at hx
        exact Option.noConfusion hx
      · unfold cellAt at hx
        by_cases hneg : idx < 0
        · rw [if_pos hneg] at hx
          exact Option.noConfusion hx
        · rw [if_neg hneg] at hx
          by_contra hcon
          rw [List.getElem?_eq_none (by omega)] at hx
          exact Option.noConfusion hx
    · obtain ⟨e, he⟩ := hsq.GetIndex_out hg
      rw [he] at hi
      simp at hi

/-- When every index that `GetIndex` returns without an error is a position of
the cell store, `GetLiveNeighbours` does not panic. -/
theorem GetLiveNeighbours_total {u : Universe}
    (hv : ∀ row column idx, u.GetIndex row column = (idx, none) →
      (cellAt u.Cells idx).isSome = true) (c : Cell) :
    ∃ c1, c.GetLiveNeighbours u = some c1 := by
  have hstep : ∀ (live : Int) (d : Int × Int), d ∈ u.Directions [0, 1, -1] → True →
      ∃ live', liveNeighboursStep c u live d = some live' ∧ True := by
    intro live d _ _
    unfold liveNeighboursStep
    rcases hgi : u.GetIndex (c.X + d.1) (c.Y + d.2) with ⟨idx, err⟩
    cases err with
    | some e => exact ⟨live, rfl, trivial⟩
    | none =>
      have := hv _ _ _ hgi
      obtain ⟨x, hx⟩ := Option.isSome_iff_exists.mp this
      exact ⟨live + x.State, by simp [Universe.GetCellStateByIndex, hx], trivial⟩
  obtain ⟨live, hl, -⟩ := foldlM_option_invariant (fun _ => True) _ _ hstep 0 trivial
  exact ⟨_, by unfold Cell.GetLiveNeighbours; rw [hl]; rfl⟩

/-- C12: coordinate invariant and row-major layout.  After any number `k` of
Ticks of `newUniverse w h` the Ticks have returned, and the cell stored at any
position `pos` has `0 ≤ X < Height`, `0 ≤ Y < Width`, `GetIndex X Y` succeeds and
returns `pos`, `X = pos / Width` and `Y = pos % Width`. -/
theorem coordinate_invariant (w h : Int) (k : Nat) :
    ∃ u rs, (newUniverse w h).Ticks k = some (u, rs) ∧
      ∀ (pos : Nat) (c : Cell), u.Cells[pos]? = some c →
        (0 ≤ c.X ∧ c.X < u.Height) ∧ (0 ≤ c.Y ∧ c.Y < u.Width) ∧
        u.GetIndex c.X c.Y = ((pos : Int), none) ∧
        c.X = (pos : Int) / u.Width ∧ c.Y = (pos : Int) % u.Width := by
  obtain ⟨u, rs, hk, hs⟩ := Ticks_seeded k (newUniverse_seeded w h)
  exact ⟨u, rs, hk, fun pos c hc => hs.coords hc⟩

/-- C14: State is binary at all times.  Every cell of `newUniverse w h` has
State 0 or 1, `UpdateCellStatus` maps a cell with State 0 or 1 to a cell with
State 0 or 1 whatever its `LiveNeighbours`, and after any number `k` of Ticks
of `newUniverse w h` every cell has State 0 or 1. -/
theorem state_binary (w h : Int) (k : Nat) :
    (∀ c ∈ (newUniverse w h).Cells, c.State = 0 ∨ c.State = 1) ∧
    (∀ c : Cell, c.State = 0 ∨ c.State = 1 →
      c.UpdateCellStatus.1.State = 0 ∨ c.UpdateCellStatus.1.State = 1) ∧
    ∃ u rs, (newUniverse w h).Ticks k = some (u, rs) ∧
      ∀ c ∈ u.Cells, c.State = 0 ∨ c.State = 1 := by
  obtain ⟨u, rs, hk, hs⟩ := Ticks_seeded k (newUniverse_seeded w h)
  exact ⟨(newUniverse_seeded w h).binary, UpdateCellStatus_binary, u, rs, hk, hs.binary⟩

/-- C15: `LiveNeighbours` stays within `[0, 8]`.  It is 0 in every cell of
`newUniverse w h`, `GetLiveNeighbours` examines eight directions, and after any
number `k` of Ticks of `newUniverse w h` every cell has
`0 ≤ LiveNeighbours ≤ 8`. -/
theorem liveNeighbours_bounded (w h : Int) (k : Nat) :
    (∀ c ∈ (newUniverse w h).Cells, c.LiveNeighbours = 0) ∧
    ((newUniverse w h).Directions [0, 1, -1]).length = 8 ∧
    ∃ u rs, (newUniverse w h).Ticks k = some (u, rs) ∧
      ∀ c ∈ u.Cells, 0 ≤ c.LiveNeighbours ∧ c.LiveNeighbours ≤ 8 := by
  obtain ⟨u, rs, hk, hs⟩ := Ticks_seeded k (newUniverse_seeded w h)
  refine ⟨?_, rfl, u, rs, hk, hs.bounded⟩
  intro c hc
  obtain ⟨i, j, -, -, rfl⟩ := mem_newUniverse hc
  exact (newCell_coords _ _ _).2.2.2

/-- C18: only validated indices reach the cell store.  After any number `k`
of Ticks of `newUniverse w h`, every index that `GetIndex` returns with a nil
error satisfies `0 ≤ index < len(Cells)`, so `GetCellStateByIndex` finds a cell
there, and neither `GetLiveNeighbours` (on any cell) nor a further `Tick`
makes an out-of-range access. -/
theorem validated_indices (w h : Int) (k : Nat) :
    ∃ u rs, (newUniverse w h).Ticks k = some (u, rs) ∧
      (∀ row column idx : Int, u.GetIndex row column = (idx, none) →
        0 ≤ idx ∧ idx < u.Cells.length ∧ (u.GetCellStateByIndex idx).isSome = true) ∧
      (∀ c : Cell, (c.GetLiveNeighbours u).isSome = true) ∧
      (u.Tick).isSome = true := by
  obtain ⟨u, rs, hk, hs⟩ := Ticks_seeded k (newUniverse_seeded w h)
  refine ⟨u, rs, hk, ?_, ?_, ?_⟩
  · intro row column idx hi
    obtain ⟨h0, h1, h2⟩ := hs.valid_index hi
    refine ⟨h0, h1, ?_⟩
    unfold Universe.GetCellStateByIndex
    rw [Option.isSome_map']
    exact h2
  · intro c
    obtain ⟨c1, hc1⟩ := GetLiveNeighbours_total (fun r cc idx hi => (hs.valid_index hi).2.2) c
    rw [hc1]; rfl
  · obtain ⟨u1, h1, -⟩ := Tick_seeded hs
    rw [h1]; rfl

theorem Square.index_in_store {u : Universe} {n : Nat} (h : Square u n) {row column idx : Int}
    (hi : u.GetIndex row column = (idx, none)) :
    (GameOfLife.cellAt u.Cells idx).isSome = true := by
  by_cases hg : inGrid n row column
  · rw [h.GetIndex_in hg] at hi
    obtain ⟨x, hx, -, -⟩ := h.cellAt hg
    have hidx : row * (n : Int) + column = idx := congrArg Prod.fst hi
    rw [← hidx, hx]; rfl
  · obtain ⟨e, he⟩ := h.GetIndex_out hg
    rw [he] at hi
    simp at hi

theorem GetLiveNeighbours_frame {c c1 : Cell} {u : Universe}
    (h : c.GetLiveNeighbours u = some c1) :
    c1.X = c.X ∧ c1.Y = c.Y ∧ c1.State = c.State := by
  unfold Cell.GetLiveNeighbours at h
  obtain ⟨live, -, rfl⟩ := Option.map_eq_some'.mp h
  exact ⟨rfl, rfl, rfl⟩

/-- Body of the loop of `Tick` in a square universe, whatever the States: the
cell at the scanned position gets `GetLiveNeighbours`, then `UpdateCellStatus`,
and is stored back. -/
theorem tickCell_frame {u : Universe} {n : Nat} (h : Square u n) {i j : Nat}
    (hi : i < n) (hj : j < n) :
    ∃ c c1, u.Cells[i * n + j]? = some c ∧ c.GetLiveNeighbours u = some c1 ∧
      tickCell u i j = some
        { u with Cells := u.Cells.set (i * n + j) c1.UpdateCellStatus.1,
                 CellsUpdated := u.CellsUpdated + c1.UpdateCellStatus.2 } := by
  have hg : inGrid n (i : Int) (j : Int) := ⟨⟨by omega, by omega⟩, by omega, by omega⟩
  obtain ⟨c, hc, -, -⟩ := h.cellAt hg
  obtain ⟨c1, hc1⟩ := GetLiveNeighbours_total (fun _ _ _ hi => h.index_in_store hi) c
  have e : ((i : Int) * n + j) = ((i * n + j : Nat) : Int) := by push_cast; ring
  refine ⟨c, c1, ?_, hc1, ?_⟩
  · rw [← cellAt_natCast, ← e]; exact hc
  · unfold tickCell
    rw [h.GetIndex_in hg]
    simp only [hc, hc1]
    rw [e, Int.toNat_ofNat]

theorem tickCell_keeps_square {u : Universe} {n : Nat} (h : Square u n) {i j : Nat}
    (hi : i < n) (hj : j < n) : ∃ u', tickCell u i j = some u' ∧ Square u' n := by
  obtain ⟨c, c1, hc, hc1, ht⟩ := tickCell_frame h hi hj
  have hf := GetLiveNeighbours_frame hc1
  have hu := UpdateCellStatus_frame c1
  exact ⟨_, ht, h.set_slot hc (hu.1.trans hf.1) (hu.2.1.trans hf.2.1) _⟩

theorem Square.same_coords {u u' : Universe} {n : Nat} (h : Square u n) (h' : Square u' n)
    {pos : Nat} {c : Cell} (hc : u.Cells[pos]? = some c) :
    ∃ c', u'.Cells[pos]? = some c' ∧ c'.X = c.X ∧ c'.Y = c.Y := by
  have e := congrArg (fun l => l[pos]?) (h'.layout.trans h.layout.symm)
  simp only [List.getElem?_map, hc, Option.map_some'] at e
  obtain ⟨c', hc', he⟩ := Option.map_eq_some'.mp e
  have h1 : c'.X = c.X := congrArg Prod.fst he
  have h2 : c'.Y = c.Y := congrArg Prod.snd he
  exact ⟨c', hc', h1, h2⟩

/-- C16: `Tick` changes only State, `LiveNeighbours` and `CellsUpdated`.  On a
square universe `Tick` returns, `Width`, `Height` and the number of cells are
unchanged and the cell at every position keeps its `X` and `Y`;
`UpdateCellStatus` keeps `X`, `Y` and `LiveNeighbours`; `GetLiveNeighbours`
keeps `X`, `Y` and State. -/
theorem Tick_frame (u : Universe) (n : Nat) (h : Square u n) :
    (∃ u' r, u.Tick = some (u', r) ∧ u'.Width = u.Width ∧ u'.Height = u.Height ∧
      u'.Cells.length = u.Cells.length ∧
      ∀ (pos : Nat) (c : Cell), u.Cells[pos]? = some c →
        ∃ c', u'.Cells[pos]? = some c' ∧ c'.X = c.X ∧ c'.Y = c.Y) ∧
    (∀ c : Cell, c.UpdateCellStatus.1.X = c.X ∧ c.UpdateCellStatus.1.Y = c.Y ∧
      c.UpdateCellStatus.1.LiveNeighbours = c.LiveNeighbours) ∧
    (∀ (c c1 : Cell) (v : Universe), c.GetLiveNeighbours v = some c1 →
      c1.X = c.X ∧ c1.Y = c.Y ∧ c1.State = c.State) ∧
    (∀ c : Cell, (c.GetLiveNeighbours u).isSome = true) := by
  obtain ⟨u', ht, hsq'⟩ := Tick_invariant (fun v => Square v n) (fun v hv => hv)
    (fun v i j hv hi hj => tickCell_keeps_square hv hi hj) u h
  refine ⟨⟨u', _, ht, ?_, ?_, ?_, fun pos c hc => h.same_coords hsq' hc⟩,
    UpdateCellStatus_frame, fun c c1 v hc => GetLiveNeighbours_frame hc, ?_⟩
  · rw [hsq'.width, h.width]
  · rw [hsq'.height, h.height]
  · rw [hsq'.length, h.length]
  · intro c
    obtain ⟨c1, hc1⟩ := GetLiveNeighbours_total (fun _ _ _ hi => h.index_in_store hi) c
    rw [hc1]; rfl

/-- Witness for C16: the 3 x 3 universe whose bottom row is alive. -/
theorem Tick_frame_witness :
    ∃ u' r, (gridOf 3 [(2, 0), (2, 1), (2, 2)]).Tick = some (u', r) ∧
      u'.Width = 3 ∧ u'.Height = 3 ∧ u'.Cells.length = 9 :=
  let ⟨u', r, h1, h2, h3, h4, _⟩ :=
    (Tick_frame (gridOf 3 [(2, 0), (2, 1), (2, 2)]) 3 ⟨rfl, rfl, by decide⟩).1
  ⟨u', r, h1, h2, h3, h4⟩

/-! ## The scan of `Tick` as one pass over the cell store -/

theorem foldlM_congr_inv {α β : Type} (P : β → Prop) (f g : β → α → Option β) (l : List α)
    (hfg : ∀ b a, a ∈ l → P b → f b a = g b a)
    (hP : ∀ b a b', a ∈ l → P b → g b a = some b' → P b') (b : β) (hb : P b) :
    l.foldlM f b = l.foldlM g b := by
  induction l generalizing b with
  | nil => rfl
  | cons a l ih =>
    rw [List.foldlM_cons, List.foldlM_cons, hfg b a (List.mem_cons_self a l) hb]
    cases hg : g b a with
    | none => rfl
    | some b' =>
      exact ih (fun b x hx => hfg b x (List.mem_cons_of_mem a hx))
        (fun b x b' hx => hP b x b' (List.mem_cons_of_mem a hx)) b'
        (hP b a b' (List.mem_cons_self a l) hb hg)

theorem foldlM_some_invariant {α β : Type} (P : β → Prop) (g : β → α → Option β) (l : List α)
    (hP : ∀ b a b', a ∈ l → P b → g b a = some b' → P b') (b : β) (hb : P b) (b' : β)
    (h : l.foldlM g b = some b') : P b' := by
  induction l generalizing b with
  | nil =>
    have : b = b' := by simpa using h
    exact this ▸ hb
  | cons a l ih =>
    rw [List.foldlM_cons] at h
    cases hg : g b a with
    | none => rw [hg] at h; exact Option.noConfusion h
    | some b1 =>
      rw [hg] at h
      exact ih (fun b x b' hx => hP b x b' (List.mem_cons_of_mem a hx)) b1
        (hP b a b1 (List.mem_cons_self a l) hb hg) h

theorem foldlM_flatMap_option {α β γ : Type} (f : β → γ → Option β) (g : α → List γ)
    (l : List α) (b : β) :
    (l.flatMap g).foldlM f b = l.foldlM (fun b x => (g x).foldlM f b) b := by
  induction l generalizing b with
  | nil => rfl
  | cons a l ih =>
    rw [List.flatMap_cons, List.foldlM_append, List.foldlM_cons]
    cases (g a).foldlM f b with
    | none => rfl
    | some b1 => exact ih b1

theorem visitCell_eq_tickCell {u : Universe} {n : Nat} (h : Square u n) {i j : Nat}
    (hi : i < n) (hj : j < n) : tickCell u i j = visitCell u (i * n + j) := by
  obtain ⟨c, c1, hc, hc1, ht⟩ := tickCell_frame h hi hj
  rw [ht]
  unfold visitCell
  simp only [hc, hc1]

theorem visitCell_keeps_square {u u' : Universe} {n : Nat} (h : Square u n) {i j : Nat}
    (hi : i < n) (hj : j < n) (hv : visitCell u (i * n + j) = some u') : Square u' n := by
  obtain ⟨v, hv1, hsq⟩ := tickCell_keeps_square h hi hj
  rw [visitCell_eq_tickCell h hi hj, hv] at hv1
  cases hv1
  exact hsq

theorem tickRow_eq_visits {u : Universe} {n : Nat} (h : Square u n) {i : Nat} (hi : i < n) :
    tickRow u i = ((List.range n).map (fun j => i * n + j)).foldlM visitCell u := by
  unfold tickRow
  rw [h.width, Int.toNat_ofNat, List.foldlM_map]
  exact foldlM_congr_inv (fun v => Square v n) _ _ _
    (fun v j hj hv => visitCell_eq_tickCell hv hi (List.mem_range.mp hj))
    (fun v j v' hj hv he => visitCell_keeps_square hv hi (List.mem_range.mp hj) he) u h

theorem visits_keep_square {u u' : Universe} {n : Nat} (h : Square u n) {i : Nat} (hi : i < n)
    (hv : ((List.range n).map (fun j => i * n + j)).foldlM visitCell u = some u') :
    Square u' n := by
  rw [List.foldlM_map] at hv
  exact foldlM_some_invariant (fun v => Square v n) _ _
    (fun v j v' hj hv he => visitCell_keeps_square hv hi (List.mem_range.mp hj) he) u h u' hv

theorem positions_eq_range (n : Nat) :
    (List.range n).flatMap (fun i => (List.range n).map (fun j => i * n + j)) =
      List.range (n * n) := by
  rw [range_flatMap_range n n (fun i j => i * n + j)]
  conv_rhs => rw [← List.map_id (List.range (n * n))]
  apply List.map_congr_left
  intro k _
  have := Nat.div_add_mod k n
  rw [Nat.mul_comm] at this
  simpa using this

/-- On a square universe the nested loops of `Tick` visit the positions
`0, 1, ..., n * n - 1` of the cell store, each once and in this order. -/
theorem Tick_eq_scanAll {u : Universe} {n : Nat} (h : Square u n) :
    u.Tick = (scanAll u).map (fun u1 => (u1, u1.CellsUpdated)) := by
  unfold Universe.Tick scanAll
  rw [h.height, Int.toNat_ofNat, h.length, ← positions_eq_range n, foldlM_flatMap_option]
  congr 1
  exact foldlM_congr_inv (fun v => Square v n) _ _ _
    (fun v i hi hv => tickRow_eq_visits hv (List.mem_range.mp hi))
    (fun v i v' hi hv he => visits_keep_square hv (List.mem_range.mp hi) he) u h

theorem Seeded.Tick_eq_scan {w : Int} {u : Universe} (hs : Seeded w u) :
    u.Tick = (scanAll u).map (fun u1 => (u1, u1.CellsUpdated)) := by
  by_cases hw : 0 ≤ w
  · exact Tick_eq_scanAll (hs.square hw)
  · unfold Universe.Tick scanAll
    have h0 : u.Height.toNat = 0 := by rw [hs.height]; omega
    rw [h0, hs.nil (by omega)]
    rfl

theorem Seeded.lookups {w : Int} {u : Universe} (hs : Seeded w u) :
    (List.range u.Height.toNat).flatMap
        (fun i => (List.range u.Width.toNat).map (fun (j : Nat) => u.GetIndex i j)) =
      (List.range u.Cells.length).map (fun (pos : Nat) => ((pos : Int), none)) := by
  by_cases hw : w ≤ 0
  · have h0 : u.Height.toNat = 0 := by rw [hs.height]; omega
    rw [h0, hs.nil hw]
    rfl
  · have hw0 : 0 ≤ w := by omega
    have hsq := hs.square hw0
    rw [hsq.height, hsq.width, Int.toNat_ofNat, hsq.length,
      range_flatMap_range w.toNat w.toNat (fun i j => u.GetIndex (i : Nat) (j : Nat))]
    apply List.map_congr_left
    intro pos hpos
    have hpos' : pos < w.toNat * w.toNat := List.mem_range.mp hpos
    have hnpos : 0 < w.toNat := by omega
    have hdiv : pos / w.toNat < w.toNat := Nat.div_lt_of_lt_mul hpos'
    have hmod : pos % w.toNat < w.toNat := Nat.mod_lt _ hnpos
    have hg : inGrid w.toNat ((pos / w.toNat : Nat) : Int) ((pos % w.toNat : Nat) : Int) :=
      ⟨⟨Int.ofNat_zero_le _, by exact_mod_cast hdiv⟩, Int.ofNat_zero_le _,
        by exact_mod_cast hmod⟩
    rw [hsq.GetIndex_in hg]
    have := Nat.div_add_mod pos w.toNat
    have e : ((pos / w.toNat : Nat) : Int) * (w.toNat : Int) + ((pos % w.toNat : Nat) : Int) =
        (pos : Int) := by
      rw [Nat.mul_comm] at this
      exact_mod_cast this
    rw [e]

/-- C19: a full scan always completes and covers the whole grid.  After any
number `k` of Ticks of `newUniverse w h`, a further `Tick` returns; its result
is that of visiting every position of the cell store once, in storage order,
each visit applying `GetLiveNeighbours` and then `UpdateCellStatus`; every
`GetIndex` lookup of the scan succeeds, and the lookups, in scan order, return
the positions `0, 1, ..., len(Cells) - 1`. -/
theorem full_scan (w h : Int) (k : Nat) :
    ∃ u rs, (newUniverse w h).Ticks k = some (u, rs) ∧
      (∃ u', u.Tick = some (u', u'.CellsUpdated) ∧ scanAll u = some u') ∧
      (∀ i j : Nat, (i : Int) < u.Height → (j : Int) < u.Width →
        u.GetIndex i j = ((i : Int) * u.Width + j, none)) ∧
      (List.range u.Height.toNat).flatMap
          (fun i => (List.range u.Width.toNat).map (fun (j : Nat) => u.GetIndex i j)) =
        (List.range u.Cells.length).map (fun (pos : Nat) => ((pos : Int), none)) := by
  obtain ⟨u, rs, hk, hs⟩ := Ticks_seeded k (newUniverse_seeded w h)
  refine ⟨u, rs, hk, ?_, ?_, hs.lookups⟩
  · obtain ⟨u', ht, -⟩ := Tick_seeded hs
    refine ⟨u', ht, ?_⟩
    rw [hs.Tick_eq_scan] at ht
    obtain ⟨v, hv, he⟩ := Option.map_eq_some'.mp ht
    have : v = u' := congrArg Prod.fst he
    rw [hv, this]
  · intro i j hi hj
    unfold Universe.GetIndex
    rw [hs.height] at hi
    rw [hs.width] at hj
    rw [hs.width, hs.height, if_neg (by omega), if_neg (by omega)]

/-! ## Sequential semantics and the changed-cell counter -/

theorem UpdateCellStatus_lifeRule (c : Cell) (hs : c.State = 0 ∨ c.State = 1) :
    c.UpdateCellStatus.1.State = lifeRule c.State c.LiveNeighbours := by
  unfold Cell.UpdateCellStatus lifeRule
  rcases hs with hs | hs
  · simp only [hs]
    by_cases h3 : c.LiveNeighbours = 3 <;> simp [h3, hs]
  · simp only [hs]
    by_cases hd : c.LiveNeighbours < 2 ∨ c.LiveNeighbours > 3
    · have h2 : ¬ (c.LiveNeighbours = 2 ∨ c.LiveNeighbours = 3) := by omega
      simp [hd, h2]
    · have h2 : c.LiveNeighbours = 2 ∨ c.LiveNeighbours = 3 := by omega
      simp [hd, h2, hs]

theorem UpdateCellStatus_flag_eq (c : Cell) :
    c.UpdateCellStatus.2 = if c.UpdateCellStatus.1.State ≠ c.State then 1 else 0 := by
  unfold Cell.UpdateCellStatus
  by_cases h1 : c.State = 1
  · by_cases hd : c.LiveNeighbours < 2 ∨ c.LiveNeighbours > 3 <;> simp [h1, hd]
  · by_cases h0 : c.State = 0
    · by_cases h3 : c.LiveNeighbours = 3 <;> simp [h0, h3]
    · simp [h1, h0]

theorem cellAt_set_ne (cells : List Cell) (m : Nat) (x : Cell) (idx : Int)
    (hne : idx ≠ (m : Int)) : cellAt (cells.set m x) idx = cellAt cells idx := by
  unfold cellAt
  by_cases hneg : idx < 0
  · rw [if_pos hneg, if_pos hneg]
  · rw [if_neg hneg, if_neg hneg, List.getElem?_set_ne (by omega)]

theorem stateAt_set_ne (v : Universe) (n m : Nat) (x : Cell) (cu : Int) (r c : Int)
    (hne : inGrid n r c → r * n + c ≠ (m : Int)) :
    stateAt { v with Cells := v.Cells.set m x, CellsUpdated := cu } n r c = stateAt v n r c := by
  unfold stateAt
  by_cases hg : inGrid n r c
  · rw [if_pos hg, if_pos hg]
    show ((cellAt (v.Cells.set m x) (r * n + c)).map _).getD 0 = _
    rw [cellAt_set_ne _ _ _ _ (hne hg)]
  · rw [if_neg hg, if_neg hg]

theorem stateAt_set_eq (v : Universe) (n m : Nat) (x : Cell) (cu : Int) (r c : Int)
    (hg : inGrid n r c) (he : r * n + c = (m : Int)) (hm : m < v.Cells.length) :
    stateAt { v with Cells := v.Cells.set m x, CellsUpdated := cu } n r c = x.State := by
  unfold stateAt
  rw [if_pos hg, he]
  show ((cellAt (v.Cells.set m x) (m : Int)).map _).getD 0 = _
  rw [cellAt_natCast, List.getElem?_set_self hm]
  rfl

theorem stateAt_eq_of_getElem? (u v : Universe) (n : Nat) (r c : Int)
    (h : inGrid n r c → (v.Cells[(r * n + c).toNat]?).map (fun x => x.State) =
      (u.Cells[(r * n + c).toNat]?).map (fun x => x.State)) :
    stateAt v n r c = stateAt u n r c := by
  unfold stateAt
  by_cases hg : inGrid n r c
  · rw [if_pos hg, if_pos hg]
    unfold cellAt
    by_cases hneg : r * n + c < 0
    · rw [if_pos hneg, if_pos hneg]
    · rw [if_neg hneg, if_neg hneg, h hg]
  · rw [if_neg hg, if_neg hg]

theorem offsets_split : offsets = visitedOffsets ++ laterOffsets := rfl

theorem stateAt_out (u : Universe) (n : Nat) (r c : Int) (hg : ¬ inGrid n r c) :
    stateAt u n r c = 0 := by
  unfold stateAt
  rw [if_neg hg]

theorem liveCount_eq_seqCount (u v : Universe) (n : Nat) (r c : Int) (hg : inGrid n r c)
    (hlater : ∀ r' c' : Int, inGrid n r' c' → r * n + c ≤ r' * n + c' →
      stateAt v n r' c' = stateAt u n r' c') :
    liveCount v n r c = seqCount u v n r c := by
  unfold liveCount seqCount
  rw [offsets_split, List.countP_append]
  congr 1
  apply List.countP_congr
  intro d hd
  have hst : stateAt v n (r + d.1) (c + d.2) = stateAt u n (r + d.1) (c + d.2) := by
    by_cases hg' : inGrid n (r + d.1) (c + d.2)
    · apply hlater _ _ hg'
      obtain ⟨⟨hr0, hr1⟩, hc0, hc1⟩ := hg
      obtain ⟨⟨hr0', hr1'⟩, hc0', hc1'⟩ := hg'
      have e1 : (r + 1) * (n : Int) = r * n + n := by ring
      simp only [laterOffsets, List.mem_cons, List.mem_singleton, List.mem_nil_iff,
        or_false] at hd
      rcases hd with rfl | rfl | rfl | rfl
      · simp only [add_zero]; omega
      · simp only [] at *; rw [e1]; omega
      · simp only [] at *; rw [e1]; omega
      · simp only [] at *; rw [e1]; omega
    · rw [stateAt_out _ _ _ _ hg', stateAt_out _ _ _ _ hg']
  rw [hst]

theorem seqCount_set (u v : Universe) (n m : Nat) (x : Cell) (cu : Int) (r c : Int)
    (hg : inGrid n r c) (hle : r * n + c ≤ (m : Int)) :
    seqCount u { v with Cells := v.Cells.set m x, CellsUpdated := cu } n r c =
      seqCount u v n r c := by
  unfold seqCount
  congr 1
  apply List.countP_congr
  intro d hd
  have hst : stateAt { v with Cells := v.Cells.set m x, CellsUpdated := cu } n (r + d.1) (c + d.2) =
      stateAt v n (r + d.1) (c + d.2) := by
    apply stateAt_set_ne
    intro hg'
    obtain ⟨⟨hr0, hr1⟩, hc0, hc1⟩ := hg
    obtain ⟨⟨hr0', hr1'⟩, hc0', hc1'⟩ := hg'
    have e1 : (r + -1) * (n : Int) = r * n - n := by ring
    simp only [visitedOffsets, List.mem_cons, List.mem_singleton, List.mem_nil_iff,
      or_false] at hd
    rcases hd with rfl | rfl | rfl | rfl
    · simp only [] at *; rw [e1]; omega
    · simp only [] at *; rw [e1]; omega
    · simp only [] at *; rw [e1]; omega
    · simp only [add_zero] at *; omega
  rw [hst]

theorem visitCell_binary {v : Universe} {n : Nat} (h : Square v n) (hb : Binary v) {k : Nat}
    {c : Cell} (hc : v.Cells[k]? = some c) :
    visitCell v k = some
      { v with
        Cells := v.Cells.set k
          (Cell.UpdateCellStatus { c with LiveNeighbours := (liveCount v n c.X c.Y : Nat) }).1,
        CellsUpdated := v.CellsUpdated +
          (Cell.UpdateCellStatus { c with LiveNeighbours := (liveCount v n c.X c.Y : Nat) }).2 } := by
  unfold visitCell
  simp only [hc, GetLiveNeighbours_square h hb]

theorem stateAt_of_getElem? {v : Universe} {n : Nat} {r c : Int} {m : Nat} {x : Cell}
    (hg : inGrid n r c) (he : r * n + c = (m : Int)) (hx : v.Cells[m]? = some x) :
    stateAt v n r c = x.State := by
  unfold stateAt
  rw [if_pos hg, he, cellAt_natCast, hx]
  rfl

/-- One visit of the scan carries the invariant from position `m` to `m + 1`. -/
theorem ScanInv.step {u v : Universe} {n m : Nat} (h : ScanInv u n m v) (hm : m < n * n) :
    ∃ v', visitCell v m = some v' ∧ ScanInv u n (m + 1) v' := by
  have hlen := h.square.length
  obtain ⟨c, hc, -, -⟩ := h.square.getElem? hm
  have hmlt : m < v.Cells.length := by omega
  have hcb : c.State = 0 ∨ c.State = 1 := h.binary c (List.getElem?_mem hc)
  have hfr := UpdateCellStatus_frame { c with LiveNeighbours := (liveCount v n c.X c.Y : Nat) }
  have hlr := UpdateCellStatus_lifeRule
    { c with LiveNeighbours := (liveCount v n c.X c.Y : Nat) } hcb
  have hfl := UpdateCellStatus_flag_eq { c with LiveNeighbours := (liveCount v n c.X c.Y : Nat) }
  have hbin := UpdateCellStatus_binary
    { c with LiveNeighbours := (liveCount v n c.X c.Y : Nat) } hcb
  have hum : (u.Cells[m]?).map (fun x => x.State) = some c.State := by
    rw [← h.later m (Nat.le_refl m), hc]; rfl
  refine ⟨_, visitCell_binary h.square h.binary hc, ?_, ?_, ?_, ?_, ?_⟩
  · exact h.square.set_slot hc hfr.1 hfr.2.1 _
  · exact h.binary.set_binary_slot hbin _
  · intro k hk
    show ((v.Cells.set m _)[k]?).map _ = _
    rw [List.getElem?_set_ne (by omega)]
    exact h.later k (by omega)
  · show v.CellsUpdated + _ = u.CellsUpdated + ((List.countP _ (List.range (m + 1)) : Nat) : Int)
    rw [h.counter, List.range_succ, List.countP_append, List.countP_singleton]
    have hcong : List.countP
        (fun k => decide ((u.Cells[k]?).map (fun x => x.State) ≠
          ((v.Cells.set m (Cell.UpdateCellStatus
            { c with LiveNeighbours := (liveCount v n c.X c.Y : Nat) }).1)[k]?).map
              (fun x => x.State))) (List.range m) =
        List.countP
          (fun k => decide ((u.Cells[k]?).map (fun x => x.State) ≠
            (v.Cells[k]?).map (fun x => x.State))) (List.range m) := by
      apply List.countP_congr
      intro k hk
      have hkm : m ≠ k := by have := List.mem_range.mp hk; omega
      rw [List.getElem?_set_ne hkm]
    show _ = u.CellsUpdated + ((List.countP _ (List.range m) + _ : Nat) : Int)
    rw [hcong, hfl, hum, List.getElem?_set_self hmlt]
    simp only [Option.map_some', ne_eq, Option.some.injEq, decide_not, Bool.not_eq_true',
      decide_eq_false_iff_not]
    by_cases hch : (Cell.UpdateCellStatus
        { c with LiveNeighbours := (liveCount v n c.X c.Y : Nat) }).1.State = c.State
    · simp [hch]
    · have hch' : ¬ c.State = (Cell.UpdateCellStatus
          { c with LiveNeighbours := (liveCount v n c.X c.Y : Nat) }).1.State :=
        fun hh => hch hh.symm
      simp [hch, hch']
      ring
  · intro r cc hg hlt
    by_cases heq : r * n + cc = (m : Int)
    · obtain ⟨x, hx, hxX, hxY⟩ := h.square.cellAt hg
      rw [heq, cellAt_natCast, hc] at hx
      cases hx
      rw [stateAt_set_eq _ _ _ _ _ _ _ hg heq hmlt, hlr, seqCount_set _ _ _ _ _ _ _ _ hg (by omega)]
      have hsv : stateAt v n r cc = c.State := stateAt_of_getElem? hg heq hc
      have hsu : stateAt v n r cc = stateAt u n r cc :=
        stateAt_eq_of_getElem? u v n r cc (fun _ => h.later _ (by omega))
      have hlc : liveCount v n r cc = seqCount u v n r cc :=
        liveCount_eq_seqCount u v n r cc hg
          (fun r' c' _ hle => stateAt_eq_of_getElem? u v n r' c' (fun _ => h.later _ (by omega)))
      show lifeRule c.State ((liveCount v n c.X c.Y : Nat) : Int) = _
      rw [hxX, hxY, hlc, ← hsu, hsv]
    · rw [stateAt_set_ne _ _ _ _ _ _ _ (fun _ => heq), seqCount_set _ _ _ _ _ _ _ _ hg (by omega)]
      exact h.earlier r cc hg (by omega)

theorem foldlM_range_indexed {β : Type} (Q : Nat → β → Prop) (f : β → Nat → Option β) (m : Nat)
    (hf : ∀ b j, j < m → Q j b → ∃ b', f b j = some b' ∧ Q (j + 1) b') (b : β) (hb : Q 0 b) :
    ∃ b', (List.range m).foldlM f b = some b' ∧ Q m b' := by
  induction m with
  | zero => exact ⟨b, rfl, hb⟩
  | succ m ih =>
    obtain ⟨b1, h1, hQ1⟩ := ih (fun b j hj hQ => hf b j (by omega) hQ)
    obtain ⟨b2, h2, hQ2⟩ := hf b1 m (by omega) hQ1
    refine ⟨b2, ?_, hQ2⟩
    rw [List.range_succ, List.foldlM_append, h1]
    simp [h2]

theorem ScanInv.start {u : Universe} {n : Nat} (h : Square u n) (hb : Binary u) :
    ScanInv u n 0 u := by
  refine ⟨h, hb, fun _ _ => rfl, by simp, ?_⟩
  intro r c hg hlt
  obtain ⟨⟨hr0, -⟩, hc0, -⟩ := hg
  have : 0 ≤ r * (n : Int) := Int.mul_nonneg hr0 (Int.ofNat_zero_le n)
  omega

/-- On a square binary universe `Tick` returns, and the universe it leaves
satisfies the scan invariant at the end of the cell store. -/
theorem Tick_scan_invariant {u : Universe} {n : Nat} (h : Square u n) (hb : Binary u) :
    ∃ u', u.Tick = some (u', u'.CellsUpdated) ∧ ScanInv u n (n * n) u' := by
  obtain ⟨u', hs, hinv⟩ := foldlM_range_indexed (fun m v => ScanInv u n m v) visitCell (n * n)
    (fun v m hm hv => hv.step hm) u (ScanInv.start h hb)
  refine ⟨u', ?_, hinv⟩
  rw [Tick_eq_scanAll h]
  unfold scanAll
  rw [h.length, hs]
  rfl

theorem inGrid_flat_lt {n : Nat} {r c : Int} (hg : inGrid n r c) :
    r * n + c < ((n * n : Nat) : Int) := by
  obtain ⟨⟨hr0, hr1⟩, hc0, hc1⟩ := hg
  obtain ⟨i, rfl⟩ := Int.eq_ofNat_of_zero_le hr0
  obtain ⟨j, rfl⟩ := Int.eq_ofNat_of_zero_le hc0
  have := flat_lt (by exact_mod_cast hr1 : i < n) (by exact_mod_cast hc1 : j < n)
  exact_mod_cast this

/-- C17: sequential in-place semantics of `Tick`.  On a square binary universe
`Tick` returns, and the State of every in-grid cell `(i, j)` afterwards is the
life rule applied to its State before and to a neighbour count in which the
in-grid neighbours `(i-1,j-1)`, `(i-1,j)`, `(i-1,j+1)`, `(i,j-1)` contribute their
States after the tick and the in-grid neighbours `(i,j+1)`, `(i+1,j-1)`,
`(i+1,j)`, `(i+1,j+1)` their States before it. -/
theorem Tick_sequential (u : Universe) (n : Nat) (h : Square u n) (hb : Binary u) :
    ∃ u' r, u.Tick = some (u', r) ∧
      ∀ i j : Int, inGrid n i j →
        stateAt u' n i j = lifeRule (stateAt u n i j) (seqCount u u' n i j) := by
  obtain ⟨u', ht, hinv⟩ := Tick_scan_invariant h hb
  exact ⟨u', _, ht, fun i j hg => hinv.earlier i j hg (inGrid_flat_lt hg)⟩

/-- Witness for C17: the 3 x 3 universe whose bottom row is alive. -/
theorem Tick_sequential_witness :
    ∃ u' r, (gridOf 3 [(2, 0), (2, 1), (2, 2)]).Tick = some (u', r) ∧
      stateAt u' 3 1 2 = lifeRule (stateAt (gridOf 3 [(2, 0), (2, 1), (2, 2)]) 3 1 2)
        (seqCount (gridOf 3 [(2, 0), (2, 1), (2, 2)]) u' 3 1 2) :=
  let ⟨u', r, h1, h2⟩ :=
    Tick_sequential (gridOf 3 [(2, 0), (2, 1), (2, 2)]) 3 ⟨rfl, rfl, by decide⟩ (by decide)
  ⟨u', r, h1, h2 1 2 (by decide)⟩

theorem Tick_counter_step {u : Universe} {n : Nat} (h : Square u n) (hb : Binary u) :
    ∃ u', u.Tick = some (u', u'.CellsUpdated) ∧ Square u' n ∧ Binary u' ∧
      u'.CellsUpdated = u.CellsUpdated + (changedCells u u' : Nat) := by
  obtain ⟨u', ht, hinv⟩ := Tick_scan_invariant h hb
  refine ⟨u', ht, hinv.square, hinv.binary, ?_⟩
  rw [hinv.counter]
  unfold changedCells
  rw [h.length]

theorem Ticks_counter {n : Nat} (k : Nat) {u : Universe} (h : Square u n) (hb : Binary u) :
    ∃ u' rs, u.Ticks k = some (u', rs) ∧ rs.length = k ∧
      (∀ m, m < k → rs[m]? = some (u.CellsUpdated + (totalChanges u (m + 1) : Nat))) ∧
      (∀ x ∈ rs, u.CellsUpdated ≤ x) ∧ rs.Pairwise (fun a b => a ≤ b) := by
  induction k generalizing u with
  | zero => exact ⟨u, [], rfl, rfl, fun m hm => absurd hm (by omega), by simp, List.Pairwise.nil⟩
  | succ k ih =>
    obtain ⟨u1, h1, hsq1, hb1, hcu1⟩ := Tick_counter_step h hb
    obtain ⟨u2, rs, h2, hlen, hval, hge, hpw⟩ := ih hsq1 hb1
    refine ⟨u2, u1.CellsUpdated :: rs, ?_, by simp [hlen], ?_, ?_, ?_⟩
    · simp only [Universe.Ticks, h1, h2, Option.map_some']
    · intro m hm
      cases m with
      | zero =>
        simp only [List.getElem?_cons_zero, totalChanges, h1, hcu1]
        simp
      | succ m =>
        rw [List.getElem?_cons_succ, hval m (by omega), hcu1]
        conv_rhs => rw [totalChanges, h1]
        simp only []
        push_cast
        rw [Int.add_assoc]
    · intro x hx
      rcases List.mem_cons.mp hx with rfl | hx
      · rw [hcu1]; omega
      · have := hge x hx
        rw [hcu1] at this
        omega
    · exact List.Pairwise.cons hge hpw

theorem wrapInt64_eq_self {x : Int} (h : inInt64 x) : wrapInt64 x = x := by
  unfold inInt64 at h
  unfold wrapInt64
  omega

theorem wrapInt64_add_left (a b : Int) : wrapInt64 (wrapInt64 a + b) = wrapInt64 (a + b) := by
  unfold wrapInt64
  omega

theorem wrapInt64_inInt64 (x : Int) : inInt64 (wrapInt64 x) := by
  unfold inInt64 wrapInt64
  omega

theorem cellAt_mem {cells : List Cell} {idx : Int} {x : Cell} (h : cellAt cells idx = some x) :
    x ∈ cells := by
  unfold cellAt at h
  split at h
  · exact Option.noConfusion h
  · exact List.getElem?_mem h

theorem side_lt_of_sq_lt {n : Nat} (hn : n * n < 2 ^ 63) : (n : Int) < 9223372036854775808 := by
  have h1 : n ≤ n * n ∨ n = 0 := by
    rcases Nat.eq_zero_or_pos n with h0 | hp
    · exact Or.inr h0
    · exact Or.inl (Nat.le_mul_of_pos_left n hp)
  have h2 : (2 : Nat) ^ 63 = 9223372036854775808 := by norm_num
  omega

/-- On a square universe whose number of cells fits in an `int`, `GetIndex`
never overflows. -/
theorem GetIndex64_eq_GetIndex {u : Universe} {n : Nat} (h : Square u n) (hn : n * n < 2 ^ 63)
    (r c : Int) : u.GetIndex64 r c = u.GetIndex r c := by
  unfold Universe.GetIndex64 Universe.GetIndex
  by_cases hr : r < 0 ∨ r ≥ u.Width
  · rw [if_pos hr, if_pos hr]
  · rw [if_neg hr, if_neg hr]
    by_cases hc : c < 0 ∨ c ≥ u.Height
    · rw [if_pos hc, if_pos hc]
    · rw [if_neg hc, if_neg hc]
      have hg : inGrid n r c := by
        rw [h.width] at hr
        rw [h.height] at hc
        exact ⟨⟨by omega, by omega⟩, by omega, by omega⟩
      have hlt := inGrid_flat_lt hg
      have h0 : 0 ≤ r * (n : Int) := Int.mul_nonneg hg.1.1 (Int.ofNat_zero_le n)
      have h2 : (2 : Nat) ^ 63 = 9223372036854775808 := by norm_num
      have hnn : ((n * n : Nat) : Int) < 9223372036854775808 := by omega
      have hc0 := hg.2.1
      rw [h.width, @wrapInt64_eq_self (r * (n : Int)) ⟨by omega, by omega⟩,
        wrapInt64_eq_self ⟨by omega, by omega⟩]

theorem liveNeighboursStep64_eq {u : Universe} {n : Nat} (h : Square u n) (hb : Binary u)
    (hn : n * n < 2 ^ 63) {c : Cell} (hc : inGrid n c.X c.Y) {live : Int} (h0 : 0 ≤ live)
    (h1 : live < 4611686018427387904) {d : Int × Int}
    (hd : (-1 ≤ d.1 ∧ d.1 ≤ 1) ∧ (-1 ≤ d.2 ∧ d.2 ≤ 1)) :
    liveNeighboursStep64 c u live d = liveNeighboursStep c u live d := by
  have hside := side_lt_of_sq_lt hn
  obtain ⟨⟨hx0, hx1⟩, hy0, hy1⟩ := hc
  unfold liveNeighboursStep64 liveNeighboursStep
  rw [@wrapInt64_eq_self (c.X + d.1) ⟨by omega, by omega⟩,
    @wrapInt64_eq_self (c.Y + d.2) ⟨by omega, by omega⟩, GetIndex64_eq_GetIndex h hn]
  rcases hgi : u.GetIndex (c.X + d.1) (c.Y + d.2) with ⟨idx, err⟩
  cases err with
  | some e => rfl
  | none =>
    simp only [Universe.GetCellStateByIndex]
    cases hx : cellAt u.Cells idx with
    | none => rfl
    | some x =>
      have hs := hb x (cellAt_mem hx)
      simp only [Option.map_some']
      rw [@wrapInt64_eq_self (live + x.State) ⟨by omega, by omega⟩]

theorem liveNeighbours_fold64 {u : Universe} {n : Nat} (h : Square u n) (hb : Binary u)
    (hn : n * n < 2 ^ 63) {c : Cell} (hc : inGrid n c.X c.Y) (l : List (Int × Int))
    (hl : ∀ d ∈ l, (-1 ≤ d.1 ∧ d.1 ≤ 1) ∧ (-1 ≤ d.2 ∧ d.2 ≤ 1)) (live : Int) (h0 : 0 ≤ live)
    (h1 : live + l.length < 4611686018427387904) :
    l.foldlM (liveNeighboursStep64 c u) live = l.foldlM (liveNeighboursStep c u) live := by
  induction l generalizing live with
  | nil => rfl
  | cons d l ih =>
    have hlen : ((d :: l).length : Int) = (l.length : Int) + 1 := by simp
    rw [List.foldlM_cons, List.foldlM_cons,
      liveNeighboursStep64_eq h hb hn hc h0 (by omega) (hl d (List.mem_cons_self d l)),
      liveNeighboursStep_square h hb]
    simp only [Option.bind_eq_bind, Option.some_bind]
    apply ih (fun x hx => hl x (List.mem_cons_of_mem d hx))
    · split_ifs <;> omega
    · split_ifs <;> omega

/-- On a square binary universe whose number of cells fits in an `int`, no sum
of `GetLiveNeighbours` overflows for a cell with in-grid coordinates. -/
theorem GetLiveNeighbours64_eq {u : Universe} {n : Nat} (h : Square u n) (hb : Binary u)
    (hn : n * n < 2 ^ 63) {c : Cell} (hc : inGrid n c.X c.Y) :
    c.GetLiveNeighbours64 u = c.GetLiveNeighbours u := by
  unfold Cell.GetLiveNeighbours64 Cell.GetLiveNeighbours
  rw [liveNeighbours_fold64 h hb hn hc _ _ 0 (by omega) (by rw [Directions_eq]; decide)]
  intro d hd
  rw [Directions_eq] at hd
  simp only [List.mem_cons, List.mem_singleton, List.mem_nil_iff, or_false] at hd
  rcases hd with rfl | rfl | rfl | rfl | rfl | rfl | rfl | rfl <;> decide

theorem tickCell_keeps_binary {u u' : Universe} {n : Nat} (h : Square u n) (hb : Binary u)
    {i j : Nat} (hi : i < n) (hj : j < n) (ht : tickCell u i j = some u') :
    Square u' n ∧ Binary u' := by
  obtain ⟨c, hc, -, -, ht'⟩ := tickCell_square h hb hi hj
  rw [ht'] at ht
  cases ht
  have hfr := UpdateCellStatus_frame { c with LiveNeighbours := (liveCount u n i j : Nat) }
  have hbin := UpdateCellStatus_binary { c with LiveNeighbours := (liveCount u n i j : Nat) }
    (hb c (List.getElem?_mem hc))
  exact ⟨h.set_slot hc hfr.1 hfr.2.1 _, hb.set_binary_slot hbin _⟩

theorem tickCell64_sim {u : Universe} {n : Nat} (h : Square u n) (hb : Binary u)
    (hn : n * n < 2 ^ 63) {i j : Nat} (hi : i < n) (hj : j < n) :
    tickCell64 (wrapCounter u) i j = (tickCell u i j).map wrapCounter := by
  have hg : inGrid n (i : Int) (j : Int) := ⟨⟨by omega, by omega⟩, by omega, by omega⟩
  obtain ⟨c, hc, hX, hY⟩ := h.cellAt hg
  obtain ⟨c1, hc1⟩ : ∃ c1, c.GetLiveNeighbours u = some c1 := ⟨_, GetLiveNeighbours_square h hb c⟩
  have hgc : inGrid n c.X c.Y := by rw [hX, hY]; exact hg
  have h64 : c.GetLiveNeighbours64 (wrapCounter u) = some c1 := by
    have : c.GetLiveNeighbours64 (wrapCounter u) = c.GetLiveNeighbours64 u := rfl
    rw [this, GetLiveNeighbours64_eq h hb hn hgc, hc1]
  have hi64 : (wrapCounter u).GetIndex64 i j = ((i : Int) * n + j, none) := by
    have : (wrapCounter u).GetIndex64 i j = u.GetIndex64 i j := rfl
    rw [this, GetIndex64_eq_GetIndex h hn, h.GetIndex_in hg]
  have hcw : cellAt (wrapCounter u).Cells ((i : Int) * n + j) = some c := hc
  unfold tickCell64 tickCell
  rw [hi64, h.GetIndex_in hg]
  simp only [hcw, hc, h64, hc1, Option.map_some']
  unfold wrapCounter
  simp only [wrapInt64_add_left]

theorem foldlM_map_sim {α β : Type} (φ : β → β) (P : β → Prop) (f g : β → α → Option β)
    (l : List α) (hsim : ∀ b a, a ∈ l → P b → f (φ b) a = (g b a).map φ)
    (hP : ∀ b a b', a ∈ l → P b → g b a = some b' → P b') (b : β) (hb : P b) :
    l.foldlM f (φ b) = (l.foldlM g b).map φ := by
  induction l generalizing b with
  | nil => rfl
  | cons a l ih =>
    rw [List.foldlM_cons, List.foldlM_cons, hsim b a (List.mem_cons_self a l) hb]
    cases hg : g b a with
    | none => rfl
    | some b' =>
      exact ih (fun b x hx => hsim b x (List.mem_cons_of_mem a hx))
        (fun b x b' hx => hP b x b' (List.mem_cons_of_mem a hx)) b'
        (hP b a b' (List.mem_cons_self a l) hb hg)

theorem tickRow_keeps_binary {u u' : Universe} {n : Nat} (h : Square u n) (hb : Binary u)
    {i : Nat} (hi : i < n) (ht : tickRow u i = some u') : Square u' n ∧ Binary u' := by
  unfold tickRow at ht
  rw [h.width, Int.toNat_ofNat] at ht
  exact foldlM_some_invariant (fun v => Square v n ∧ Binary v) _ _
    (fun v j v' hj hv he => tickCell_keeps_binary hv.1 hv.2 hi (List.mem_range.mp hj) he)
    u ⟨h, hb⟩ u' ht

theorem tickRow64_sim {u : Universe} {n : Nat} (h : Square u n) (hb : Binary u)
    (hn : n * n < 2 ^ 63) {i : Nat} (hi : i < n) :
    tickRow64 (wrapCounter u) i = (tickRow u i).map wrapCounter := by
  unfold tickRow64 tickRow
  have hw : (wrapCounter u).Width = u.Width := rfl
  rw [hw, h.width, Int.toNat_ofNat]
  exact foldlM_map_sim wrapCounter (fun v => Square v n ∧ Binary v) _ _ _
    (fun v j hj hv => tickCell64_sim hv.1 hv.2 hn hi (List.mem_range.mp hj))
    (fun v j v' hj hv he => tickCell_keeps_binary hv.1 hv.2 hi (List.mem_range.mp hj) he)
    u ⟨h, hb⟩

/-- `Tick` with 64-bit arithmetic on a square binary universe whose number of
cells fits in an `int`: the result is that of `Tick` in exact integers with the
counter reduced to 64 bits. -/
theorem Tick64_sim {u : Universe} {n : Nat} (h : Square u n) (hb : Binary u)
    (hn : n * n < 2 ^ 63) :
    (wrapCounter u).Tick64 =
      (u.Tick).map (fun p => (wrapCounter p.1, wrapInt64 p.2)) := by
  unfold Universe.Tick64 Universe.Tick
  have hw : (wrapCounter u).Height = u.Height := rfl
  rw [hw, h.height, Int.toNat_ofNat,
    foldlM_map_sim wrapCounter (fun v => Square v n ∧ Binary v) _
      (fun v (i : Nat) => tickRow v i) _
      (fun v i hi hv => tickRow64_sim hv.1 hv.2 hn (List.mem_range.mp hi))
      (fun v i v' hi hv he => tickRow_keeps_binary hv.1 hv.2 (List.mem_range.mp hi) he)
      u ⟨h, hb⟩]
  cases (List.range n).foldlM (fun v (i : Nat) => tickRow v i) u with
  | none => rfl
  | some v => rfl

theorem wrapCounter_eq_self {u : Universe} (hcu : inInt64 u.CellsUpdated) :
    wrapCounter u = u := by
  unfold wrapCounter
  rw [wrapInt64_eq_self hcu]

theorem Ticks64_sim {n : Nat} (hn : n * n < 2 ^ 63) (k : Nat) {u : Universe} (h : Square u n)
    (hb : Binary u) :
    (wrapCounter u).Ticks64 k =
      (u.Ticks k).map (fun p => (wrapCounter p.1, p.2.map wrapInt64)) ∧
    totalChanges64 (wrapCounter u) k = totalChanges u k := by
  induction k generalizing u with
  | zero => exact ⟨rfl, rfl⟩
  | succ k ih =>
    obtain ⟨u1, h1, hsq1, hb1, -⟩ := Tick_counter_step h hb
    obtain ⟨ih1, ih2⟩ := ih hsq1 hb1
    have h64 := Tick64_sim h hb hn
    rw [h1] at h64
    simp only [Option.map_some'] at h64
    constructor
    · simp only [Universe.Ticks64, Universe.Ticks, h64, h1, ih1]
      cases u1.Ticks k with
      | none => rfl
      | some p => rfl
    · simp only [totalChanges64, totalChanges, h64, h1, ih2]
      rfl

theorem totalChanges_le_succ (k : Nat) (u : Universe) :
    totalChanges u k ≤ totalChanges u (k + 1) := by
  induction k generalizing u with
  | zero => exact Nat.zero_le _
  | succ k ih =>
    rw [totalChanges, totalChanges]
    cases u.Tick with
    | none => exact Nat.le_refl _
    | some p => exact Nat.add_le_add_left (ih p.1) _

theorem totalChanges_mono (u : Universe) {a b : Nat} (hab : a ≤ b) :
    totalChanges u a ≤ totalChanges u b := by
  induction hab with
  | refl => exact Nat.le_refl _
  | step _ ih => exact Nat.le_trans ih (totalChanges_le_succ _ u)

/-! ## Coordinate mapping with 64-bit arithmetic -/

/-- C4, evaluated on a universe of width 2^62 and height 1: row 2, column 0 is
accepted, and the index returned is -2^63, not `row * Width + column = 2^63`. -/
theorem GetIndex64_overflow :
    ((0 : Int) ≤ 2 ∧ (2 : Int) < 4611686018427387904) ∧ ((0 : Int) ≤ 0 ∧ (0 : Int) < 1) ∧
    Universe.GetIndex64 ⟨0, 4611686018427387904, 1, []⟩ 2 0 = (-9223372036854775808, none) ∧
    Universe.GetIndex64 ⟨0, 4611686018427387904, 1, []⟩ 2 0 ≠
      (2 * 4611686018427387904 + 0, none) := by
  refine ⟨?_, ?_, ?_, ?_⟩ <;> decide

/-- C4, amended: `GetIndex row column` returns a nil error exactly when
`0 ≤ row < Width` and `0 ≤ column < Height`; it then returns
`row * Width + column` computed in 64-bit arithmetic, which is exactly
`row * Width + column` whenever that number is below 2^63; in every other case
it returns index -1 with a non-nil error. -/
theorem GetIndex64_spec (u : Universe) (row column : Int) :
    ((u.GetIndex64 row column).2 = none ↔
        (0 ≤ row ∧ row < u.Width) ∧ (0 ≤ column ∧ column < u.Height)) ∧
    ((0 ≤ row ∧ row < u.Width) ∧ (0 ≤ column ∧ column < u.Height) →
        u.GetIndex64 row column = (wrapInt64 (row * u.Width + column), none)) ∧
    ((0 ≤ row ∧ row < u.Width) ∧ (0 ≤ column ∧ column < u.Height) →
        row * u.Width + column < 2 ^ 63 →
        u.GetIndex64 row column = (row * u.Width + column, none)) ∧
    (¬ ((0 ≤ row ∧ row < u.Width) ∧ (0 ≤ column ∧ column < u.Height)) →
        (u.GetIndex64 row column).1 = -1 ∧ (u.GetIndex64 row column).2 ≠ none) := by
  unfold Universe.GetIndex64
  by_cases hr : row < 0 ∨ row ≥ u.Width
  · have hn : ¬ (0 ≤ row ∧ row < u.Width) := by omega
    simp [hr, hn]
  · have hp : 0 ≤ row ∧ row < u.Width := by omega
    by_cases hc : column < 0 ∨ column ≥ u.Height
    · have hn : ¬ (0 ≤ column ∧ column < u.Height) := by omega
      simp [hr, hc, hn]
    · have hq : 0 ≤ column ∧ column < u.Height := by omega
      rw [if_neg hr, if_neg hc, wrapInt64_add_left]
      refine ⟨?_, fun _ => rfl, ?_, fun hcon => absurd ⟨hp, hq⟩ hcon⟩
      · simp [hp, hq]
      · intro _ hlt
        have h0 : 0 ≤ row * u.Width := Int.mul_nonneg hp.1 (by omega)
        have h2 : (2 : Int) ^ 63 = 9223372036854775808 := by norm_num
        rw [wrapInt64_eq_self ⟨by omega, by omega⟩]

/-- Witness for C4: row 1, column 2 of a universe of width 2 and height 3. -/
theorem GetIndex64_spec_witness :
    Universe.GetIndex64 ⟨0, 2, 3, []⟩ 1 2 = (4, none) :=
  (GetIndex64_spec ⟨0, 2, 3, []⟩ 1 2).2.2.1 (by decide) (by decide)

/-! ## The changed-cell counter with 64-bit arithmetic -/

theorem Tick64_counter_step {u : Universe} {n : Nat} (h : Square u n) (hb : Binary u)
    (hn : n * n < 2 ^ 63) (hcu : inInt64 u.CellsUpdated) :
    ∃ u1, u.Tick64 = some (u1, u1.CellsUpdated) ∧
      u1.CellsUpdated = wrapInt64 (u.CellsUpdated + (changedCells u u1 : Nat)) := by
  obtain ⟨v, hv, -, -, hcv⟩ := Tick_counter_step h hb
  have h64 := Tick64_sim h hb hn
  rw [wrapCounter_eq_self hcu, hv] at h64
  refine ⟨wrapCounter v, h64, ?_⟩
  show wrapInt64 v.CellsUpdated = _
  rw [hcv]
  rfl

theorem Ticks64_counter {n : Nat} (hn : n * n < 2 ^ 63) (k : Nat) {u : Universe}
    (h : Square u n) (hb : Binary u) (hcu : inInt64 u.CellsUpdated) :
    ∃ u' rs, u.Ticks64 k = some (u', rs) ∧ rs.length = k ∧
      (∀ m, m < k →
        rs[m]? = some (wrapInt64 (u.CellsUpdated + (totalChanges64 u (m + 1) : Nat)))) ∧
      (u.CellsUpdated + (totalChanges64 u k : Nat) < 2 ^ 63 →
        rs.Pairwise (fun a b => a ≤ b) ∧
        ∀ m, m < k → rs[m]? = some (u.CellsUpdated + (totalChanges64 u (m + 1) : Nat))) := by
  obtain ⟨v, rs, hk, hlen, hval, hge, hpw⟩ := Ticks_counter k h hb
  obtain ⟨hsim, htot⟩ := Ticks64_sim hn k h hb
  have htot' : ∀ m, totalChanges64 u m = totalChanges u m := by
    intro m
    have := (Ticks64_sim hn m h hb).2
    rw [wrapCounter_eq_self hcu] at this
    exact this
  rw [wrapCounter_eq_self hcu, hk] at hsim
  have h2 : (2 : Int) ^ 63 = 9223372036854775808 := by norm_num
  refine ⟨wrapCounter v, rs.map wrapInt64, hsim, by simp [hlen], ?_, ?_⟩
  · intro m hm
    rw [List.getElem?_map, hval m hm, htot']
    rfl
  · intro hfit
    rw [htot'] at hfit
    have hid : rs.map wrapInt64 = rs := by
      conv_rhs => rw [← List.map_id rs]
      apply List.map_congr_left
      intro x hx
      obtain ⟨m, hm⟩ := List.mem_iff_getElem?.mp hx
      have hmk : m < k := by
        rw [← hlen]
        by_contra hcon
        rw [List.getElem?_eq_none (by omega)] at hm
        exact Option.noConfusion hm
      rw [hval m hmk] at hm
      have hx' : x = u.CellsUpdated + (totalChanges u (m + 1) : Nat) := (Option.some.inj hm).symm
      have hmono := totalChanges_mono u (by omega : m + 1 ≤ k)
      have hlo := hcu.1
      rw [hx']
      exact wrapInt64_eq_self ⟨by omega, by omega⟩
    rw [hid]
    refine ⟨hpw, fun m hm => ?_⟩
    rw [hval m hm, htot']

/-- C13, evaluated on the 3 x 3 universe whose bottom row is alive and whose
counter is 2^63 - 1: the universe is square and binary, three cells change
State in the tick, and `Tick` returns -9223372036854775806, which is neither
the counter before plus 3 nor at least the counter before. -/
theorem Tick64_counter_overflow :
    Square (gridWithCounter 3 [(2, 0), (2, 1), (2, 2)] 9223372036854775807) 3 ∧
    Binary (gridWithCounter 3 [(2, 0), (2, 1), (2, 2)] 9223372036854775807) ∧
    ((gridWithCounter 3 [(2, 0), (2, 1), (2, 2)] 9223372036854775807).Tick64).map
        (fun p => (p.2, p.1.CellsUpdated,
          changedCells (gridWithCounter 3 [(2, 0), (2, 1), (2, 2)] 9223372036854775807) p.1)) =
      some (-9223372036854775806, -9223372036854775806, 3) ∧
    (-9223372036854775806 : Int) ≠ 9223372036854775807 + 3 ∧
    (-9223372036854775806 : Int) < 9223372036854775807 := by
  refine ⟨⟨rfl, rfl, by decide⟩, ?_, ?_, ?_, ?_⟩ <;> decide

/-- C13, amended: on a square binary universe (its number of cells and its
counter being Go `int` values) `Tick` returns the new `CellsUpdated`, which is
the `CellsUpdated` before plus the number of cells whose State changed, reduced
to 64 bits; `k` consecutive Ticks return values whose entry `m` is the initial
counter plus the total number of State changes over the first `m + 1` ticks,
reduced to 64 bits.  While the initial counter plus the number of changes
stays below 2^63 the sums are exact and the returned values are
non-decreasing. -/
theorem Tick64_counter (u : Universe) (n : Nat) (h : Square u n) (hb : Binary u)
    (hn : n * n < 2 ^ 63) (hcu : inInt64 u.CellsUpdated) (k : Nat) :
    (∃ u1 r, u.Tick64 = some (u1, r) ∧ r = u1.CellsUpdated ∧
      u1.CellsUpdated = wrapInt64 (u.CellsUpdated + (changedCells u u1 : Nat)) ∧
      (u.CellsUpdated + (changedCells u u1 : Nat) < 2 ^ 63 →
        u1.CellsUpdated = u.CellsUpdated + (changedCells u u1 : Nat))) ∧
    ∃ u' rs, u.Ticks64 k = some (u', rs) ∧ rs.length = k ∧
      (∀ m, m < k →
        rs[m]? = some (wrapInt64 (u.CellsUpdated + (totalChanges64 u (m + 1) : Nat)))) ∧
      (u.CellsUpdated + (totalChanges64 u k : Nat) < 2 ^ 63 →
        rs.Pairwise (fun a b => a ≤ b) ∧
        ∀ m, m < k → rs[m]? = some (u.CellsUpdated + (totalChanges64 u (m + 1) : Nat))) := by
  obtain ⟨u1, h1, hc1⟩ := Tick64_counter_step h hb hn hcu
  refine ⟨⟨u1, _, h1, rfl, hc1, ?_⟩, Ticks64_counter hn k h hb hcu⟩
  intro hfit
  have h2 : (2 : Int) ^ 63 = 9223372036854775808 := by norm_num
  have hlo := hcu.1
  rw [hc1]
  exact wrapInt64_eq_self ⟨by omega, by omega⟩

/-- Witness for C13: two ticks of the 3 x 3 universe whose bottom row is alive,
with counter 0. -/
theorem Tick64_counter_witness :
    ∃ u1 r, (gridOf 3 [(2, 0), (2, 1), (2, 2)]).Tick64 = some (u1, r) ∧ r = u1.CellsUpdated ∧
      u1.CellsUpdated = wrapInt64 ((gridOf 3 [(2, 0), (2, 1), (2, 2)]).CellsUpdated +
        (changedCells (gridOf 3 [(2, 0), (2, 1), (2, 2)]) u1 : Nat)) :=
  let ⟨u1, r, h1, h2, h3, _⟩ :=
    (Tick64_counter (gridOf 3 [(2, 0), (2, 1), (2, 2)]) 3 ⟨rfl, rfl, by decide⟩ (by decide)
      (by decide) (by decide) 2).1
  ⟨u1, r, h1, h2, h3⟩

end GameOfLife
